import Mathlib

/-!
MAX30102 acquisition pipeline.

Shallow embedding of `Software/Firmware/project/max30102/src/max30102.cpp`:
the FIFO drain `MAX30102::check`, the history ring cursors behind
`available`/`getRed`/`getIR`, the lifecycle calls `begin`/`stop` and the
publishing loop of `dataReady`.

Conventions.
* C++ `int` values are `Int`; conversions to `uint8_t`, `int8_t` and `uint16_t`
  are written out (`toUInt8`, `toInt8`, `toUInt16`).
* `I2C_BUFFER_LENGTH`, `STORAGE_SIZE` and the register constants are declared in
  `max30102.hpp`, which is outside the translated file; they are parameters.
* A `while` loop is a function recursive on a step budget; a run that is still
  inside the loop when the budget is spent yields `Fault.outOfFuel`.
* `std::memcpy` of the four `temp` bytes into a `uint32_t` is taken on a
  little-endian host (the Raspberry Pi the firmware targets).
-/

namespace MAX30102

/-- Reasons a bounded run of the model yields no result. -/
inductive Fault where
  /-- The loop has not left its body when the step budget is spent. -/
  | outOfFuel
  /-- Subscript `dataReceived[index]` past the end of the vector. -/
  | outOfBounds
  deriving DecidableEq, Repr

/-- Build constants of `max30102.hpp` and the channel count fixed by `setup`. -/
structure Config where
  I2C_BUFFER_LENGTH : Nat
  STORAGE_SIZE : Nat
  activeLEDs : Nat

/-- The record `sense`: two reading arrays indexed by slot, and the two cursors.
Its declaration is in `max30102.hpp`. The statements `sense.head++;
sense.head %= STORAGE_SIZE;` are taken as `(head + 1) % STORAGE_SIZE`, which is
what they compute from `head < STORAGE_SIZE` for any unsigned cursor type that
can hold every slot index `0 .. STORAGE_SIZE - 1`. -/
structure Sense where
  red : Nat → Nat
  IR : Nat → Nat
  head : Nat
  tail : Nat

/-- Conversion of an `int` to `uint8_t`. -/
def toUInt8 (x : Int) : Nat := (x % 256).toNat

/-- Conversion of an `int` to `int8_t` (two's complement wrap). -/
def toInt8 (x : Int) : Int := (x + 128) % 256 - 128

/-- Conversion of an `int` to `uint16_t`. -/
def toUInt16 (x : Int) : Nat := (x % 65536).toNat

/-- The `uint32_t` read back by `std::memcpy(&tempLong, temp, 4)` from the bytes
`temp[0..3]` on a little-endian host. -/
def memcpyLE (temp0 temp1 temp2 temp3 : Nat) : Nat :=
  temp0 + 256 * temp1 + 65536 * temp2 + 16777216 * temp3

/-- One "burst read three bytes" block of `check`: `temp[3] = 0`,
`temp[2] = dataReceived[index]`, `temp[1] = dataReceived[index+1]`,
`temp[0] = dataReceived[index+2]`, `memcpy`, then `tempLong &= 0x3FFFF`. -/
def burstRead3 (dataReceived : List Nat) (index : Nat) : Except Fault Nat :=
  match dataReceived[index]?, dataReceived[index + 1]?, dataReceived[index + 2]? with
  | some b0, some b1, some b2 => Except.ok (memcpyLE b2 b1 b0 0 &&& 0x3FFFF)
  | _, _, _ => Except.error Fault.outOfBounds

/-- Body of the inner `while (toGet > 0)` loop of `check` up to the update of
`toGet`: advance `head`, store Red, store IR when `activeLEDs > 1`.
Returns the new ring and the new `index`. -/
def decodeSample (cfg : Config) (dataReceived : List Nat) (index : Nat) (sense : Sense) :
    Except Fault (Sense × Nat) :=
  let head := (sense.head + 1) % cfg.STORAGE_SIZE
  match burstRead3 dataReceived index with
  | Except.error e => Except.error e
  | Except.ok tempLong =>
    let sense1 : Sense := { sense with head := head, red := Function.update sense.red head tempLong }
    if cfg.activeLEDs > 1 then
      match burstRead3 dataReceived (index + 3) with
      | Except.error e => Except.error e
      | Except.ok tempLong2 =>
        Except.ok ({ sense1 with IR := Function.update sense1.IR head tempLong2 }, index + 6)
    else Except.ok (sense1, index + 3)

/-- The inner loop `while (toGet > 0) { ...; toGet -= activeLEDs * 3; }`. -/
def decodeLoop (cfg : Config) (dataReceived : List Nat) :
    Nat → Int → Nat → Sense → Except Fault Sense
  | 0, toGet, _, sense => if toGet > 0 then Except.error Fault.outOfFuel else Except.ok sense
  | fuel + 1, toGet, index, sense =>
    if toGet > 0 then
      match decodeSample cfg dataReceived index sense with
      | Except.error e => Except.error e
      | Except.ok (sense1, index1) =>
        decodeLoop cfg dataReceived fuel (toGet - (cfg.activeLEDs : Int) * 3) index1 sense1
    else Except.ok sense

/-- What one pass of `check` has done so far: the ring, the number of bytes
already clocked out of the FIFO data register, and the lengths received by
`readMany`, oldest first. -/
structure Drain where
  sense : Sense
  fifoPos : Nat
  requests : List Nat

/-- The block read `readMany(REG_FIFODATA, length)`: a vector of exactly `length`
bytes. The bus is taken to deliver every requested byte, so the vector holds the
next `length` bytes of the FIFO data register (`fifo k` is the `k`-th byte
delivered during this pass). -/
def readMany (fifo : Nat → Nat) (fifoPos : Nat) (length : Nat) : List Nat :=
  (List.range length).map (fun i => fifo (fifoPos + i) % 256)

/-- The outer loop `while (bytesLeftToRead > 0)` of `check`. The argument `toGet`
of `readMany` is converted to its `uint8_t` parameter `length`. -/
def burstLoop (cfg : Config) (fifo : Nat → Nat) (innerFuel : Nat) :
    Nat → Int → Drain → Except Fault Drain
  | 0, bytesLeftToRead, d =>
    if bytesLeftToRead > 0 then Except.error Fault.outOfFuel else Except.ok d
  | fuel + 1, bytesLeftToRead, d =>
    if bytesLeftToRead > 0 then
      let toGet : Int :=
        if bytesLeftToRead > (cfg.I2C_BUFFER_LENGTH : Int) then
          (cfg.I2C_BUFFER_LENGTH : Int) - (cfg.I2C_BUFFER_LENGTH : Int) % ((cfg.activeLEDs : Int) * 3)
        else bytesLeftToRead
      let length := toUInt8 toGet
      let dataReceived := readMany fifo d.fifoPos length
      match decodeLoop cfg dataReceived innerFuel toGet 0 d.sense with
      | Except.error e => Except.error e
      | Except.ok sense =>
        burstLoop cfg fifo innerFuel fuel (bytesLeftToRead - toGet)
          { sense := sense, fifoPos := d.fifoPos + length, requests := d.requests ++ [length] }
    else Except.ok d

/-- The function `MAX30102::check`, given the two pointer registers as read.
Returns the `uint16_t` result and the effects of the pass. -/
def check (cfg : Config) (fuel : Nat) (fifo : Nat → Nat) (readPointer writePointer : Nat)
    (sense : Sense) : Except Fault (Nat × Drain) :=
  let d0 : Drain := { sense := sense, fifoPos := 0, requests := [] }
  if readPointer ≠ writePointer then
    let numberOfSamples : Int := (writePointer : Int) - (readPointer : Int)
    let numberOfSamples : Int := if numberOfSamples < 0 then numberOfSamples + 32 else numberOfSamples
    let bytesLeftToRead : Int := numberOfSamples * (cfg.activeLEDs : Int) * 3
    match burstLoop cfg fifo fuel fuel bytesLeftToRead d0 with
    | Except.error e => Except.error e
    | Except.ok d => Except.ok (toUInt16 numberOfSamples, d)
  else Except.ok (0, d0)

/-- The function `MAX30102::available`. -/
def available (cfg : Config) (sense : Sense) : Nat :=
  let numberOfSamples : Int := toInt8 ((sense.head : Int) - (sense.tail : Int))
  let numberOfSamples : Int :=
    if numberOfSamples < 0 then toInt8 (numberOfSamples + (cfg.STORAGE_SIZE : Int))
    else numberOfSamples
  toUInt8 numberOfSamples

/-- The function `MAX30102::getRed`. -/
def getRed (sense : Sense) : Nat := sense.red sense.head

/-- The function `MAX30102::getIR`. -/
def getIR (sense : Sense) : Nat := sense.IR sense.head

/-! ### Reference definitions used to state the properties -/

/-- The reading the spec assigns to a big-endian 3-byte group: the low 18 bits
of the 24-bit value. -/
def specReading (b0 b1 b2 : Nat) : Nat := (b0 * 65536 + b1 * 256 + b2) % 262144

/-- Big-endian re-encoding of a reading into three bytes. -/
def encodeBE (v : Nat) : Nat × Nat × Nat := (v / 65536 % 256, v / 256 % 256, v % 256)

/-- Number of bytes the decode loop consumes per ring slot: one group, or two
when `activeLEDs > 1`. -/
def stride (cfg : Config) : Nat := if cfg.activeLEDs > 1 then 6 else 3

/-- The spec reading of the group that starts at byte offset `off`. -/
def groupReading (byteAt : Nat → Nat) (off : Nat) : Nat :=
  specReading (byteAt off) (byteAt (off + 1)) (byteAt (off + 2))

/-- The (Red, IR) pair of the sample that starts at byte offset `off`; IR is
reported as 0 when only Red is active. -/
def sampleOf (cfg : Config) (byteAt : Nat → Nat) (off : Nat) : Nat × Nat :=
  (groupReading byteAt off, if cfg.activeLEDs > 1 then groupReading byteAt (off + 3) else 0)

/-- History Ring `append` of the spec: advance `head` by one slot modulo the
capacity and overwrite that slot's Red, and its IR when IR is active. -/
def appendSample (cfg : Config) (sense : Sense) (x : Nat × Nat) : Sense :=
  let head := (sense.head + 1) % cfg.STORAGE_SIZE
  { red := Function.update sense.red head x.1
    IR := if cfg.activeLEDs > 1 then Function.update sense.IR head x.2 else sense.IR
    head := head
    tail := sense.tail }

/-- Appending a list of samples, oldest first. -/
def appendSamples (cfg : Config) (sense : Sense) (xs : List (Nat × Nat)) : Sense :=
  xs.foldl (appendSample cfg) sense

/-- Pending sample count of the spec: `(writePtr - readPtr) mod 32`. -/
def pending (readPointer writePointer : Nat) : Nat :=
  (((writePointer : Int) - (readPointer : Int)) % 32).toNat

/-- Successive passes of `check`, one per edge event handled by the worker, each
with the pointer registers and FIFO bytes the device presents at that event.
Returns the total sample count reported and the final ring. -/
def checkPasses (cfg : Config) (fuel : Nat) :
    List ((Nat → Nat) × Nat × Nat) → Sense → Except Fault (Nat × Sense)
  | [], sense => Except.ok (0, sense)
  | (fifo, readPointer, writePointer) :: rest, sense =>
    match check cfg fuel fifo readPointer writePointer sense with
    | Except.error e => Except.error e
    | Except.ok (n, d) =>
      match checkPasses cfg fuel rest d.sense with
      | Except.error e => Except.error e
      | Except.ok (m, sense1) => Except.ok (n + m, sense1)

/-- A ring with every slot zero and both cursors at slot 0, used as the start
state of the worked scenarios. -/
def zeroRing : Sense := { red := fun _ => 0, IR := fun _ => 0, head := 0, tail := 0 }

/-- Configuration of the end-to-end scenario of the spec: Red and IR active, a
bus burst cap of 12 bytes, and a ring of the given capacity. -/
def scenarioConfig (capacity : Nat) : Config :=
  { I2C_BUFFER_LENGTH := 12, STORAGE_SIZE := capacity, activeLEDs := 2 }

/-! ### Lifecycle: `begin` and `stop` -/

/-- Register constants of `max30102.hpp` used by `shutDown`, and the two
identification constants used by `begin`. -/
structure Consts where
  REG_MODECONFIG : Nat
  MASK_SHUTDOWN : Nat
  SHUTDOWN : Nat
  MAX30102_ADDRESS : Nat
  MAX30102_EXPECTEDPARTID : Nat

/-- The driver object together with the device registers it talks to. The
counters record how often each external effect has been performed. -/
structure Device where
  /-- Member `_i2c`. -/
  i2c : Int
  /-- Member `_i2caddr`. -/
  i2caddr : Nat
  /-- Member `running`. -/
  running : Bool
  /-- Whether member `thr` owns a thread (`thr.joinable()`). -/
  thrJoinable : Bool
  /-- Device register file, by register address. -/
  regs : Nat → Nat
  /-- Threads constructed by `std::thread(&MAX30102::worker, this)`. -/
  workersStarted : Nat
  /-- Assignments of `chipDRDY`/`lineDRDY` by `begin`. -/
  drdyOpens : Nat
  /-- Completed calls of `thr.join()`. -/
  joins : Nat
  /-- Calls of `gpiod_line_release(lineDRDY)`. -/
  lineReleases : Nat
  /-- Calls of `gpiod_chip_close(chipDRDY)`. -/
  chipCloses : Nat
  /-- Calls of `close(fdDRDY)`. -/
  fdCloses : Nat

/-- Results of the system and library calls `begin` makes, in call order:
`open`, `ioctl(I2C_SLAVE)`, `readPartID`, the falling-edge request and the read
of `REG_REVISIONID`. -/
structure BeginCalls where
  openResult : Int
  ioctlResult : Int
  partID : Nat
  requestResult : Int
  revisionID : Int

/-- How a call of `begin` ends. -/
inductive BeginOutcome where
  /-- The call returns the value. -/
  | returned (value : Int)
  /-- The call throws "Could not request event for IRQ.". -/
  | threw
  /-- Move-assignment onto a joinable `std::thread` calls `std::terminate`. -/
  | terminated
  deriving DecidableEq, Repr

/-- The function `MAX30102::begin`. -/
def begin (K : Consts) (env : BeginCalls) (dev : Device) : BeginOutcome × Device :=
  if env.openResult = -1 then (BeginOutcome.returned (-1), dev)
  else if env.ioctlResult < 0 then (BeginOutcome.returned (-2), dev)
  else
    let dev1 : Device := { dev with i2c := env.openResult, i2caddr := K.MAX30102_ADDRESS }
    if env.partID ≠ K.MAX30102_EXPECTEDPARTID then (BeginOutcome.returned (-3), dev1)
    else
      let dev2 : Device := { dev1 with drdyOpens := dev1.drdyOpens + 1 }
      if env.requestResult < 0 then (BeginOutcome.threw, dev2)
      else
        let dev3 : Device := { dev2 with running := true }
        let dev4 : Device := { dev3 with workersStarted := dev3.workersStarted + 1 }
        if dev.thrJoinable then (BeginOutcome.terminated, dev4)
        else (BeginOutcome.returned env.revisionID, { dev4 with thrJoinable := true })

/-- The function `MAX30102::bitMask` on the register file: read the register,
keep the bits under `mask`, write back with `thing` set. All values are bytes. -/
def bitMask (regs : Nat → Nat) (reg mask thing : Nat) : Nat → Nat :=
  let originalContents := regs reg % 256
  let originalContents := (originalContents &&& mask) % 256
  Function.update regs reg ((originalContents ||| thing) % 256)

/-- The function `MAX30102::shutDown`. -/
def shutDown (K : Consts) (dev : Device) : Device :=
  { dev with regs := bitMask dev.regs K.REG_MODECONFIG K.MASK_SHUTDOWN K.SHUTDOWN }

/-- The only failure of `stop`: `thr.join()` on a thread object that is not
joinable throws `std::system_error`. -/
inductive StopFault where
  | joinNotJoinable
  deriving DecidableEq, Repr

/-- The function `MAX30102::stop`; the destructor is a single call of it. -/
def stop (K : Consts) (dev : Device) : Except StopFault Device :=
  let dev1 := shutDown K dev
  if !dev1.running then Except.ok dev1
  else
    let dev2 : Device := { dev1 with running := false }
    if dev2.thrJoinable then
      Except.ok { dev2 with
        thrJoinable := false
        joins := dev2.joins + 1
        lineReleases := dev2.lineReleases + 1
        chipCloses := dev2.chipCloses + 1
        fdCloses := dev2.fdCloses + 1 }
    else Except.error StopFault.joinNotJoinable

/-- Constants of the MAX30102 data sheet, used in the worked scenarios: mode
register 0x09, shutdown bit 0x80 under mask 0x7F, bus address 0x57, part ID 0x15. -/
def sheetConsts : Consts :=
  { REG_MODECONFIG := 0x09, MASK_SHUTDOWN := 0x7F, SHUTDOWN := 0x80,
    MAX30102_ADDRESS := 0x57, MAX30102_EXPECTEDPARTID := 0x15 }

/-- A driver in state Running: `begin` has succeeded once on bus handle 3. -/
def runningDevice : Device :=
  { i2c := 3, i2caddr := 0x57, running := true, thrJoinable := true, regs := fun _ => 0,
    workersStarted := 1, drdyOpens := 1, joins := 0, lineReleases := 0, chipCloses := 0,
    fdCloses := 0 }

/-- The calls of a second `begin` on a Running driver: `open` yields the fresh
handle 4, `ioctl` and the part-ID check succeed, and the falling-edge request is
refused (result -1) because the line requested by the first call is released
only in `stop`. -/
def busyCalls : BeginCalls :=
  { openResult := 4, ioctlResult := 0, partID := 0x15, requestResult := -1, revisionID := 3 }

/-! ### Publishing: `dataReady` -/

/-- Modelled from the spec: the Output Queue `max30102queue`, whose type is
declared outside this file. Per section 4.5 it has a bounded capacity, `push` is
a non-blocking insert that reports a full queue and leaves it untouched, and
entries leave in FIFO order. An entry is the pair `(IR, Red)`. -/
structure OutputQueue where
  capacity : Nat
  items : List (Nat × Nat)
  deriving DecidableEq, Repr

/-- Modelled from the spec: `push` of the Output Queue, a non-blocking insert at
the back; on a full queue it returns `false` and changes nothing. -/
def OutputQueue.push (q : OutputQueue) (x : Nat × Nat) : Bool × OutputQueue :=
  if q.items.length < q.capacity then (true, { q with items := q.items ++ [x] })
  else (false, q)

/-- Modelled from the spec: the consumer popping up to `k` entries from the
front, oldest first. Returns what it received and the remaining queue. -/
def OutputQueue.popMany (q : OutputQueue) (k : Nat) : List (Nat × Nat) × OutputQueue :=
  (q.items.take k, { q with items := q.items.drop k })

/-- What a call of `dataReady` leaves behind on the queue side. -/
structure Published where
  /-- The queue when `dataReady` returns. -/
  queue : OutputQueue
  /-- Calls of `std::this_thread::yield()`, one after each failed `push`. -/
  yields : Nat
  /-- Entries the consumer popped while `dataReady` was retrying, oldest first. -/
  consumed : List (Nat × Nat)
  deriving DecidableEq, Repr

/-- The loop `while (!max30102queue.push(data)) std::this_thread::yield();`.
The consumer thread is represented by `pops`: its `i`-th entry is the number of
pops the consumer performs during the `i`-th yield (none once the list ends).
`attempts` bounds the number of `push` calls. -/
def pushLoop (data : Nat × Nat) : Nat → List Nat → OutputQueue → Except Fault Published
  | 0, _, _ => Except.error Fault.outOfFuel
  | attempts + 1, pops, q =>
    match q.push data with
    | (true, q1) => Except.ok { queue := q1, yields := 0, consumed := [] }
    | (false, q1) =>
      let (got, q2) := q1.popMany (pops.headD 0)
      match pushLoop data attempts pops.tail q2 with
      | Except.error e => Except.error e
      | Except.ok p =>
        Except.ok { queue := p.queue, yields := p.yields + 1, consumed := got ++ p.consumed }

/-- The function `MAX30102::dataReady`: one `check` pass, then publish
`{getIR(), getRed()}`. -/
def dataReady (cfg : Config) (fuel attempts : Nat) (fifo : Nat → Nat)
    (readPointer writePointer : Nat) (pops : List Nat) (sense : Sense) (q : OutputQueue) :
    Except Fault (Sense × Published) :=
  match check cfg fuel fifo readPointer writePointer sense with
  | Except.error e => Except.error e
  | Except.ok (_, d) =>
    let data := (getIR d.sense, getRed d.sense)
    match pushLoop data attempts pops q with
    | Except.error e => Except.error e
    | Except.ok p => Except.ok (d.sense, p)

/-! ### Decoding -/

theorem land_3FFFF (b0 b1 b2 : Nat) :
    memcpyLE b2 b1 b0 0 &&& 0x3FFFF = specReading b0 b1 b2 := by
  have h : (0x3FFFF : Nat) = 2 ^ 18 - 1 := by norm_num
  rw [h, Nat.and_pow_two_sub_one_eq_mod]
  unfold memcpyLE specReading
  have e : b2 + 256 * b1 + 65536 * b0 + 16777216 * 0 = b0 * 65536 + b1 * 256 + b2 := by ring
  rw [e]

theorem burstRead3_eq (data : List Nat) (idx : Nat) (h : idx + 3 ≤ data.length) :
    burstRead3 data idx = Except.ok (groupReading (fun i => data.getD i 0) idx) := by
  have h0 : idx < data.length := by omega
  have h1 : idx + 1 < data.length := by omega
  have h2 : idx + 2 < data.length := by omega
  unfold burstRead3 groupReading
  simp [List.getElem?_eq_getElem, h0, h1, h2, land_3FFFF]

theorem decodeSample_eq (cfg : Config) (data : List Nat) (idx : Nat) (s : Sense)
    (h : idx + stride cfg ≤ data.length) :
    decodeSample cfg data idx s
      = Except.ok (appendSample cfg s (sampleOf cfg (fun i => data.getD i 0) idx),
          idx + stride cfg) := by
  unfold stride at h
  unfold decodeSample
  by_cases ha : cfg.activeLEDs > 1
  · simp only [ha, if_true] at h
    rw [burstRead3_eq data idx (by omega), burstRead3_eq data (idx + 3) (by omega)]
    simp [appendSample, sampleOf, stride, ha]
  · simp only [ha, if_false] at h
    rw [burstRead3_eq data idx (by omega)]
    simp [appendSample, sampleOf, stride, ha]

theorem decodeLoop_eq (cfg : Config) (data : List Nat) (ha : 1 ≤ cfg.activeLEDs) :
    ∀ (fuel m idx : Nat) (s : Sense), m ≤ fuel → idx + stride cfg * m ≤ data.length →
      decodeLoop cfg data fuel (((cfg.activeLEDs * 3 * m : Nat) : Int)) idx s
        = Except.ok (appendSamples cfg s
            ((List.range m).map (fun t => sampleOf cfg (fun i => data.getD i 0) (idx + stride cfg * t)))) := by
  intro fuel
  induction fuel with
  | zero =>
    intro m idx s hm _
    have : m = 0 := by omega
    subst this
    simp [decodeLoop, appendSamples]
  | succ fuel ih =>
    intro m idx s hm hlen
    cases m with
    | zero => simp [decodeLoop, appendSamples]
    | succ m =>
      have hpos : ((cfg.activeLEDs * 3 * (m + 1) : Nat) : Int) > 0 := by
        have : 0 < cfg.activeLEDs * 3 * (m + 1) := by positivity
        exact_mod_cast this
      have hsub : ((cfg.activeLEDs * 3 * (m + 1) : Nat) : Int) - (cfg.activeLEDs : Int) * 3
          = ((cfg.activeLEDs * 3 * m : Nat) : Int) := by
        push_cast; ring
      have hlen1 : idx + stride cfg ≤ data.length := by
        have : stride cfg * (m + 1) = stride cfg * m + stride cfg := by ring
        omega
      have hlen2 : idx + stride cfg + stride cfg * m ≤ data.length := by
        have : stride cfg * (m + 1) = stride cfg * m + stride cfg := by ring
        omega
      rw [decodeLoop, if_pos hpos, decodeSample_eq cfg data idx s hlen1]
      simp only [hsub]
      rw [ih m (idx + stride cfg) _ (by omega) hlen2]
      have hf : (fun t => sampleOf cfg (fun i => data.getD i 0) (idx + stride cfg + stride cfg * t))
          = (fun t => sampleOf cfg (fun i => data.getD i 0) (idx + stride cfg * (t + 1))) := by
        funext t
        rw [show idx + stride cfg + stride cfg * t = idx + stride cfg * (t + 1) by ring]
      rw [hf, List.range_succ_eq_map]
      simp only [appendSamples, List.map_cons, List.foldl_cons, List.map_map, Nat.mul_zero,
        Nat.add_zero]
      rfl

/-! ### The burst loop -/

theorem readMany_length (fifo : Nat → Nat) (pos len : Nat) :
    (readMany fifo pos len).length = len := by
  simp [readMany]

theorem readMany_getD (fifo : Nat → Nat) (pos len i : Nat) (h : i < len) :
    (readMany fifo pos len).getD i 0 = fifo (pos + i) % 256 := by
  simp [readMany, List.getElem?_range h, h]

theorem groupReading_readMany (fifo : Nat → Nat) (pos len idx : Nat) (h : idx + 3 ≤ len) :
    groupReading (fun i => (readMany fifo pos len).getD i 0) idx
      = groupReading (fun i => fifo i % 256) (pos + idx) := by
  unfold groupReading
  simp only []
  rw [readMany_getD fifo pos len idx (by omega), readMany_getD fifo pos len (idx + 1) (by omega),
    readMany_getD fifo pos len (idx + 2) (by omega)]
  simp only [Nat.add_assoc]

theorem sampleOf_readMany (cfg : Config) (fifo : Nat → Nat) (pos len idx : Nat)
    (h : idx + stride cfg ≤ len) :
    sampleOf cfg (fun i => (readMany fifo pos len).getD i 0) idx
      = sampleOf cfg (fun i => fifo i % 256) (pos + idx) := by
  unfold stride at h
  unfold sampleOf
  by_cases ha : cfg.activeLEDs > 1
  · simp only [ha, if_true] at h ⊢
    rw [groupReading_readMany fifo pos len idx (by omega),
      groupReading_readMany fifo pos len (idx + 3) (by omega)]
    simp only [Nat.add_assoc]
  · simp only [ha, if_false] at h ⊢
    rw [groupReading_readMany fifo pos len idx (by omega)]

theorem toUInt8_natCast (x : Nat) (h : x ≤ 255) : toUInt8 (x : Int) = x := by
  unfold toUInt8
  omega

theorem toGet_eq (a cap n : Nat) (ha : 1 ≤ a) (hcap : a * 3 ≤ cap) (hn : 1 ≤ n) :
    ∃ q, 1 ≤ q ∧ q ≤ n ∧ a * 3 * q ≤ cap ∧
      (if ((a * 3 * n : Nat) : Int) > (cap : Int) then (cap : Int) - (cap : Int) % ((a : Int) * 3)
        else ((a * 3 * n : Nat) : Int)) = ((a * 3 * q : Nat) : Int) := by
  by_cases hgt : ((a * 3 * n : Nat) : Int) > (cap : Int)
  · have hgt' : cap < a * 3 * n := by exact_mod_cast hgt
    have hdm := Nat.div_add_mod cap (a * 3)
    have hpos : 0 < a * 3 := by omega
    have hq1 : 1 ≤ cap / (a * 3) := (Nat.one_le_div_iff hpos).mpr hcap
    have hle : a * 3 * (cap / (a * 3)) ≤ cap := Nat.mul_div_le cap (a * 3)
    have hqn : cap / (a * 3) ≤ n := by
      by_contra hc
      have h1 : n + 1 ≤ cap / (a * 3) := by omega
      have h2 : a * 3 * (n + 1) ≤ a * 3 * (cap / (a * 3)) := Nat.mul_le_mul_left _ h1
      have h3 : a * 3 * (n + 1) = a * 3 * n + a * 3 := by ring
      omega
    refine ⟨cap / (a * 3), hq1, hqn, hle, ?_⟩
    rw [if_pos hgt]
    have e : (cap : Int) % ((a : Int) * 3) = ((cap % (a * 3) : Nat) : Int) := by push_cast; rfl
    rw [e]
    omega
  · refine ⟨n, hn, le_refl n, ?_, ?_⟩
    · have : ((a * 3 * n : Nat) : Int) ≤ (cap : Int) := by omega
      exact_mod_cast this
    · rw [if_neg hgt]

theorem stride_le (cfg : Config) (ha : 1 ≤ cfg.activeLEDs) : stride cfg ≤ cfg.activeLEDs * 3 := by
  unfold stride
  split <;> omega

theorem stride_eq (cfg : Config) (ha : 1 ≤ cfg.activeLEDs) (h2 : cfg.activeLEDs ≤ 2) :
    stride cfg = cfg.activeLEDs * 3 := by
  unfold stride
  split <;> omega

theorem burstLoop_eq (cfg : Config) (fifo : Nat → Nat) (innerFuel : Nat)
    (ha : 1 ≤ cfg.activeLEDs) (hcap : cfg.activeLEDs * 3 ≤ cfg.I2C_BUFFER_LENGTH) :
    ∀ (fuel n : Nat) (d : Drain), n ≤ fuel → n ≤ innerFuel →
      (cfg.I2C_BUFFER_LENGTH ≤ 255 ∨ cfg.activeLEDs * 3 * n ≤ 255) →
      ∃ d', burstLoop cfg fifo innerFuel fuel ((cfg.activeLEDs * 3 * n : Nat) : Int) d = Except.ok d' ∧
        d'.fifoPos = d.fifoPos + cfg.activeLEDs * 3 * n ∧
        (∃ L, d'.requests = d.requests ++ L ∧ L.sum = cfg.activeLEDs * 3 * n ∧
          ∀ x ∈ L, 0 < x ∧ x ≤ cfg.I2C_BUFFER_LENGTH ∧ cfg.activeLEDs * 3 ∣ x) ∧
        (∃ S, S.length = n ∧ d'.sense = appendSamples cfg d.sense S ∧
          (cfg.activeLEDs ≤ 2 → S = (List.range n).map
            (fun j => sampleOf cfg (fun i => fifo i % 256) (d.fifoPos + cfg.activeLEDs * 3 * j)))) := by
  intro fuel
  induction fuel with
  | zero =>
    intro n d hn _ _
    have : n = 0 := by omega
    subst this
    exact ⟨d, by simp [burstLoop], by simp, ⟨[], by simp⟩, ⟨[], by simp [appendSamples]⟩⟩
  | succ fuel ih =>
    intro n d hn hin hsz
    rcases Nat.eq_zero_or_pos n with h0 | hpos
    · subst h0
      exact ⟨d, by simp [burstLoop], by simp, ⟨[], by simp⟩, ⟨[], by simp [appendSamples]⟩⟩
    · obtain ⟨q, hq1, hqn, hqcap, hq⟩ :=
        toGet_eq cfg.activeLEDs cfg.I2C_BUFFER_LENGTH n ha hcap hpos
      have hqle : cfg.activeLEDs * 3 * q ≤ cfg.activeLEDs * 3 * n := Nat.mul_le_mul_left _ hqn
      have hq255 : cfg.activeLEDs * 3 * q ≤ 255 := by
        rcases hsz with h | h <;> omega
      have hbpos : ((cfg.activeLEDs * 3 * n : Nat) : Int) > 0 := by
        have : 0 < cfg.activeLEDs * 3 * n := by positivity
        exact_mod_cast this
      have hrest : ((cfg.activeLEDs * 3 * n : Nat) : Int) - ((cfg.activeLEDs * 3 * q : Nat) : Int)
          = ((cfg.activeLEDs * 3 * (n - q) : Nat) : Int) := by
        have : cfg.activeLEDs * 3 * (n - q) = cfg.activeLEDs * 3 * n - cfg.activeLEDs * 3 * q := by
          rw [Nat.mul_sub]
        omega
      have hstr : 0 + stride cfg * q ≤ (readMany fifo d.fifoPos (cfg.activeLEDs * 3 * q)).length := by
        rw [readMany_length]
        have := Nat.mul_le_mul_right q (stride_le cfg ha)
        omega
      have hdec := decodeLoop_eq cfg (readMany fifo d.fifoPos (cfg.activeLEDs * 3 * q)) ha
        innerFuel q 0 d.sense (by omega) hstr
      have hsz' : cfg.I2C_BUFFER_LENGTH ≤ 255 ∨ cfg.activeLEDs * 3 * (n - q) ≤ 255 := by
        rcases hsz with h | h
        · exact Or.inl h
        · right
          have : cfg.activeLEDs * 3 * (n - q) ≤ cfg.activeLEDs * 3 * n :=
            Nat.mul_le_mul_left _ (Nat.sub_le n q)
          omega
      obtain ⟨S1, hS1⟩ : ∃ S1 : List (Nat × Nat), S1 = (List.range q).map (fun t =>
          sampleOf cfg (fun i => (readMany fifo d.fifoPos (cfg.activeLEDs * 3 * q)).getD i 0)
            (0 + stride cfg * t)) := ⟨_, rfl⟩
      rw [← hS1] at hdec
      have hS1len : S1.length = q := by rw [hS1]; simp
      obtain ⟨d', hrun, hpos', ⟨L, hL, hsum, hall⟩, ⟨S, hSlen, hS, hSeq⟩⟩ :=
        ih (n - q)
          { sense := appendSamples cfg d.sense S1
            fifoPos := d.fifoPos + cfg.activeLEDs * 3 * q
            requests := d.requests ++ [cfg.activeLEDs * 3 * q] }
          (by omega) (by omega) hsz'
      dsimp only at hpos' hL hS hSeq
      refine ⟨d', ?_, ?_, ⟨cfg.activeLEDs * 3 * q :: L, ?_, ?_, ?_⟩, ⟨S1 ++ S, ?_, ?_, ?_⟩⟩
      · rw [burstLoop]
        simp only [hbpos, if_true, hq, toUInt8_natCast _ hq255, hdec, hrest]
        exact hrun
      · rw [hpos']
        have : cfg.activeLEDs * 3 * (n - q) = cfg.activeLEDs * 3 * n - cfg.activeLEDs * 3 * q := by
          rw [Nat.mul_sub]
        omega
      · rw [hL]
        simp
      · have : cfg.activeLEDs * 3 * (n - q) = cfg.activeLEDs * 3 * n - cfg.activeLEDs * 3 * q := by
          rw [Nat.mul_sub]
        simp only [List.sum_cons, hsum]
        omega
      · intro x hx
        rcases List.mem_cons.mp hx with h | h
        · subst h
          refine ⟨?_, hqcap, Dvd.intro _ rfl⟩
          have : 0 < cfg.activeLEDs * 3 * q := by positivity
          exact this
        · exact hall x h
      · simp only [List.length_append, hS1len, hSlen]
        omega
      · rw [hS]
        simp only [appendSamples, List.foldl_append]
      · intro h2
        rw [hSeq h2, hS1]
        have hst := stride_eq cfg ha h2
        have hnq : n = q + (n - q) := by omega
        conv_rhs => rw [hnq, List.range_add, List.map_append, List.map_map]
        have e1 : (List.range q).map (fun t =>
            sampleOf cfg (fun i => (readMany fifo d.fifoPos (cfg.activeLEDs * 3 * q)).getD i 0)
              (0 + stride cfg * t))
            = (List.range q).map
              (fun j => sampleOf cfg (fun i => fifo i % 256) (d.fifoPos + cfg.activeLEDs * 3 * j)) := by
          apply List.map_congr_left
          intro t ht
          have htq : t < q := List.mem_range.mp ht
          have hb : 0 + stride cfg * t + stride cfg ≤ cfg.activeLEDs * 3 * q := by
            rw [hst]
            have : cfg.activeLEDs * 3 * (t + 1) ≤ cfg.activeLEDs * 3 * q :=
              Nat.mul_le_mul_left _ htq
            have e : cfg.activeLEDs * 3 * (t + 1) = cfg.activeLEDs * 3 * t + cfg.activeLEDs * 3 := by
              ring
            omega
          rw [sampleOf_readMany cfg fifo d.fifoPos _ _ hb, hst]
          simp only [Nat.zero_add]
        have e2 : (List.range (n - q)).map (fun j =>
            sampleOf cfg (fun i => fifo i % 256)
              (d.fifoPos + cfg.activeLEDs * 3 * q + cfg.activeLEDs * 3 * j))
            = (List.range (n - q)).map
              ((fun j => sampleOf cfg (fun i => fifo i % 256) (d.fifoPos + cfg.activeLEDs * 3 * j))
                ∘ fun x => q + x) := by
          apply List.map_congr_left
          intro t _
          simp only [Function.comp_apply]
          rw [show d.fifoPos + cfg.activeLEDs * 3 * q + cfg.activeLEDs * 3 * t
            = d.fifoPos + cfg.activeLEDs * 3 * (q + t) by ring]
        rw [e1, e2]

/-! ### The history ring -/

theorem mod_lt_twice (x C : Nat) (hx : x < 2 * C) :
    x % C = if x < C then x else x - C := by
  split
  · exact Nat.mod_eq_of_lt (by assumption)
  · rw [Nat.mod_eq_sub_mod (by omega)]
    exact Nat.mod_eq_of_lt (by omega)

theorem appendSamples_snoc (cfg : Config) (s : Sense) (xs : List (Nat × Nat)) (x : Nat × Nat) :
    appendSamples cfg s (xs ++ [x]) = appendSample cfg (appendSamples cfg s xs) x := by
  simp [appendSamples]

theorem appendSamples_tail (cfg : Config) (xs : List (Nat × Nat)) :
    ∀ s : Sense, (appendSamples cfg s xs).tail = s.tail := by
  induction xs with
  | nil => intro s; rfl
  | cons x xs ih =>
    intro s
    have : appendSamples cfg s (x :: xs) = appendSamples cfg (appendSample cfg s x) xs := rfl
    rw [this, ih]
    rfl

theorem appendSamples_head (cfg : Config) (xs : List (Nat × Nat)) :
    ∀ s : Sense, s.head < cfg.STORAGE_SIZE →
      (appendSamples cfg s xs).head = (s.head + xs.length) % cfg.STORAGE_SIZE := by
  induction xs with
  | nil =>
    intro s hs
    simp [appendSamples, Nat.mod_eq_of_lt hs]
  | cons x xs ih =>
    intro s hs
    have e : appendSamples cfg s (x :: xs) = appendSamples cfg (appendSample cfg s x) xs := rfl
    have hlt : (appendSample cfg s x).head < cfg.STORAGE_SIZE :=
      Nat.mod_lt _ (by omega)
    rw [e, ih _ hlt]
    show ((s.head + 1) % cfg.STORAGE_SIZE + xs.length) % cfg.STORAGE_SIZE = _
    rw [Nat.mod_add_mod, List.length_cons]
    congr 1
    omega

theorem appendSamples_slot (cfg : Config) (s : Sense) (hs : s.head < cfg.STORAGE_SIZE)
    (xs : List (Nat × Nat)) :
    ∀ k : Nat, k < xs.length → k < cfg.STORAGE_SIZE →
      (appendSamples cfg s xs).red
          (((appendSamples cfg s xs).head + cfg.STORAGE_SIZE - k) % cfg.STORAGE_SIZE)
        = (xs.getD (xs.length - 1 - k) (0, 0)).1 ∧
      (cfg.activeLEDs > 1 →
        (appendSamples cfg s xs).IR
            (((appendSamples cfg s xs).head + cfg.STORAGE_SIZE - k) % cfg.STORAGE_SIZE)
          = (xs.getD (xs.length - 1 - k) (0, 0)).2) := by
  induction xs using List.reverseRecOn with
  | nil => intro k hk _; simp at hk
  | append_singleton ys x ih =>
    intro k hk hkC
    rw [appendSamples_snoc]
    have hC : 0 < cfg.STORAGE_SIZE := by omega
    have hth : (appendSamples cfg s ys).head < cfg.STORAGE_SIZE := by
      rw [appendSamples_head cfg ys s hs]
      exact Nat.mod_lt _ hC
    generalize appendSamples cfg s ys = t at hth ih
    have hlen : (ys ++ [x]).length = ys.length + 1 := by simp
    rw [hlen] at hk ⊢
    have hhead : (appendSample cfg t x).head = (t.head + 1) % cfg.STORAGE_SIZE := rfl
    have hh1 := mod_lt_twice (t.head + 1) cfg.STORAGE_SIZE (by omega)
    rcases Nat.eq_zero_or_pos k with hk0 | hkpos
    · subst hk0
      have hslot : ((appendSample cfg t x).head + cfg.STORAGE_SIZE - 0) % cfg.STORAGE_SIZE
          = (t.head + 1) % cfg.STORAGE_SIZE := by
        rw [hhead, Nat.sub_zero, Nat.add_mod_right, Nat.mod_mod]
      rw [hslot]
      have hget : (ys ++ [x]).getD (ys.length + 1 - 1 - 0) (0, 0) = x := by
        simp
      rw [hget]
      constructor
      · simp [appendSample]
      · intro ha
        simp [appendSample, ha]
    · have hslot : ((appendSample cfg t x).head + cfg.STORAGE_SIZE - k) % cfg.STORAGE_SIZE
          = (t.head + cfg.STORAGE_SIZE - (k - 1)) % cfg.STORAGE_SIZE := by
        rw [hhead, hh1]
        have h2 := mod_lt_twice (t.head + cfg.STORAGE_SIZE - (k - 1)) cfg.STORAGE_SIZE (by omega)
        rw [h2]
        split
        · have h3 := mod_lt_twice (t.head + 1 + cfg.STORAGE_SIZE - k) cfg.STORAGE_SIZE (by omega)
          rw [h3]
          split <;> split <;> omega
        · have h3 := mod_lt_twice (t.head + 1 - cfg.STORAGE_SIZE + cfg.STORAGE_SIZE - k)
            cfg.STORAGE_SIZE (by omega)
          rw [h3]
          split <;> split <;> omega
      have hne : (t.head + cfg.STORAGE_SIZE - (k - 1)) % cfg.STORAGE_SIZE
          ≠ (t.head + 1) % cfg.STORAGE_SIZE := by
        have h2 := mod_lt_twice (t.head + cfg.STORAGE_SIZE - (k - 1)) cfg.STORAGE_SIZE (by omega)
        rw [h2, hh1]
        split <;> split <;> omega
      have hget : (ys ++ [x]).getD (ys.length + 1 - 1 - k) (0, 0)
          = ys.getD (ys.length - 1 - (k - 1)) (0, 0) := by
        have e : ys.length + 1 - 1 - k = ys.length - 1 - (k - 1) := by omega
        rw [e]
        simp only [List.getD_eq_getElem?_getD]
        rw [List.getElem?_append_left (by omega)]
      obtain ⟨ihr, ihi⟩ := ih (k - 1) (by omega) (by omega)
      rw [hslot, hget]
      constructor
      · rw [← ihr]
        simp [appendSample, Function.update_noteq hne]
      · intro ha
        rw [← ihi ha]
        simp [appendSample, ha, Function.update_noteq hne]

/-! ### One pass of `check` -/

theorem pending_lt (r w : Nat) : pending r w < 32 := by
  unfold pending
  omega

theorem numberOfSamples_eq (r w : Nat) (hr : r < 32) (hw : w < 32) :
    (if (w : Int) - (r : Int) < 0 then (w : Int) - (r : Int) + 32 else (w : Int) - (r : Int))
      = ((pending r w : Nat) : Int) := by
  unfold pending
  split <;> omega

theorem pending_eq_zero_iff (r w : Nat) (hr : r < 32) (hw : w < 32) :
    pending r w = 0 ↔ r = w := by
  unfold pending
  omega

theorem burstLoop_zero (cfg : Config) (fifo : Nat → Nat) (innerFuel fuel : Nat) (d : Drain) :
    burstLoop cfg fifo innerFuel fuel 0 d = Except.ok d := by
  cases fuel <;> simp [burstLoop]

theorem check_unfold (cfg : Config) (fuel : Nat) (fifo : Nat → Nat) (r w : Nat) (s : Sense)
    (hr : r < 32) (hw : w < 32) :
    check cfg fuel fifo r w s
      = match burstLoop cfg fifo fuel fuel ((cfg.activeLEDs * 3 * pending r w : Nat) : Int)
          { sense := s, fifoPos := 0, requests := [] } with
        | Except.error e => Except.error e
        | Except.ok d => Except.ok (pending r w, d) := by
  have hlt := pending_lt r w
  have h16 : toUInt16 ((pending r w : Nat) : Int) = pending r w := by
    unfold toUInt16
    omega
  have hbytes : ((pending r w : Nat) : Int) * (cfg.activeLEDs : Int) * 3
      = ((cfg.activeLEDs * 3 * pending r w : Nat) : Int) := by
    push_cast
    ring
  unfold check
  by_cases hrw : r = w
  · have h0 : pending r w = 0 := (pending_eq_zero_iff r w hr hw).mpr hrw
    rw [h0]
    simp [hrw, burstLoop_zero]
  · simp only [ne_eq, hrw, not_false_eq_true, if_true]
    rw [numberOfSamples_eq r w hr hw, h16, hbytes]

theorem check_eq (cfg : Config) (fuel : Nat) (fifo : Nat → Nat) (r w : Nat) (s : Sense)
    (hr : r < 32) (hw : w < 32) (ha : 1 ≤ cfg.activeLEDs)
    (hcap : cfg.activeLEDs * 3 ≤ cfg.I2C_BUFFER_LENGTH)
    (hsz : cfg.I2C_BUFFER_LENGTH ≤ 255 ∨ cfg.activeLEDs * 3 * pending r w ≤ 255)
    (hfuel : pending r w ≤ fuel) :
    ∃ d, check cfg fuel fifo r w s = Except.ok (pending r w, d) ∧
      d.fifoPos = cfg.activeLEDs * 3 * pending r w ∧
      (d.requests.sum = cfg.activeLEDs * 3 * pending r w ∧
        ∀ x ∈ d.requests, 0 < x ∧ x ≤ cfg.I2C_BUFFER_LENGTH ∧ cfg.activeLEDs * 3 ∣ x) ∧
      (∃ S, S.length = pending r w ∧ d.sense = appendSamples cfg s S ∧
        (cfg.activeLEDs ≤ 2 → S = (List.range (pending r w)).map
          (fun j => sampleOf cfg (fun i => fifo i % 256) (cfg.activeLEDs * 3 * j)))) := by
  obtain ⟨d, hrun, hpos, ⟨L, hL, hsum, hall⟩, ⟨S, hSlen, hS, hSeq⟩⟩ :=
    burstLoop_eq cfg fifo fuel ha hcap fuel (pending r w)
      { sense := s, fifoPos := 0, requests := [] } hfuel hfuel hsz
  dsimp only at hpos hL hS hSeq
  simp only [List.nil_append, Nat.zero_add] at hpos hL hSeq
  refine ⟨d, ?_, hpos, ⟨?_, ?_⟩, ⟨S, hSlen, hS, hSeq⟩⟩
  · rw [check_unfold cfg fuel fifo r w s hr hw, hrun]
  · rw [hL, hsum]
  · rw [hL]
    exact hall

/-! ### Properties of the drain -/

theorem appendSample_red_head (cfg : Config) (t : Sense) (x : Nat × Nat) :
    (appendSample cfg t x).red (appendSample cfg t x).head = x.1 := by
  simp [appendSample]

theorem appendSample_IR_head (cfg : Config) (t : Sense) (x : Nat × Nat)
    (ha : cfg.activeLEDs > 1) :
    (appendSample cfg t x).IR (appendSample cfg t x).head = x.2 := by
  simp [appendSample, ha]

theorem encodeBE_specReading (b0 b1 b2 : Nat) (h1 : b1 < 256) (h2 : b2 < 256) :
    encodeBE (specReading b0 b1 b2) = (b0 % 4, b1, b2) := by
  unfold encodeBE specReading
  refine Prod.ext ?_ (Prod.ext ?_ ?_) <;> simp only [] <;> omega

/-- C1. Every 3-byte group `(b0, b1, b2)` of a burst of `n` samples handed to the
decode loop is stored, at the moment its sample is decoded, as
`(b0*65536 + b1*256 + b2) mod 262144`: in the Red array for the first group of a
sample and in the IR array for the second. Re-encoding the stored reading
big-endian gives `(b0 mod 4, b1, b2)`, the low 18 bits of the group. The run of
the loop over the whole burst passes through the state `mid` in which the
reading sits at `head`. -/
theorem decode_group_low18 (cfg : Config) (data : List Nat) (n : Nat) (sense : Sense) (fuel : Nat)
    (ha : cfg.activeLEDs = 1 ∨ cfg.activeLEDs = 2)
    (hlen : data.length = cfg.activeLEDs * 3 * n)
    (hbytes : ∀ b ∈ data, b < 256)
    (hfuel : n ≤ fuel)
    (g b0 b1 b2 : Nat)
    (h0 : data[3 * g]? = some b0) (h1 : data[3 * g + 1]? = some b1)
    (h2 : data[3 * g + 2]? = some b2) :
    ∃ mid fin,
      decodeLoop cfg data fuel ((cfg.activeLEDs * 3 * (g / cfg.activeLEDs + 1) : Nat) : Int) 0 sense
        = Except.ok mid ∧
      decodeLoop cfg data fuel ((cfg.activeLEDs * 3 * (n - (g / cfg.activeLEDs + 1)) : Nat) : Int)
        (cfg.activeLEDs * 3 * (g / cfg.activeLEDs + 1)) mid = Except.ok fin ∧
      decodeLoop cfg data fuel ((cfg.activeLEDs * 3 * n : Nat) : Int) 0 sense = Except.ok fin ∧
      (if g % cfg.activeLEDs = 0 then mid.red mid.head else mid.IR mid.head)
        = (b0 * 65536 + b1 * 256 + b2) % 262144 ∧
      encodeBE (if g % cfg.activeLEDs = 0 then mid.red mid.head else mid.IR mid.head)
        = (b0 % 4, b1, b2) := by
  have ha1 : 1 ≤ cfg.activeLEDs := by omega
  have ha2 : cfg.activeLEDs ≤ 2 := by omega
  have hst := stride_eq cfg ha1 ha2
  have hg2 : 3 * g + 2 < data.length := by
    rcases Nat.lt_or_ge (3 * g + 2) data.length with h | h
    · exact h
    · rw [List.getElem?_eq_none h] at h2; cases h2
  have hb1 : b1 < 256 := hbytes b1 (List.getElem?_mem h1)
  have hb2 : b2 < 256 := hbytes b2 (List.getElem?_mem h2)
  have hd0 : data.getD (3 * g) 0 = b0 := by simp [h0]
  have hd1 : data.getD (3 * g + 1) 0 = b1 := by simp [h1]
  have hd2 : data.getD (3 * g + 2) 0 = b2 := by simp [h2]
  obtain ⟨j, hj⟩ : ∃ j, j = g / cfg.activeLEDs := ⟨_, rfl⟩
  obtain ⟨c, hc⟩ : ∃ c, c = g % cfg.activeLEDs := ⟨_, rfl⟩
  have hgjc : g = cfg.activeLEDs * j + c := by
    rw [hj, hc]; exact (Nat.div_add_mod g cfg.activeLEDs).symm
  have hclt : c < cfg.activeLEDs := by rw [hc]; exact Nat.mod_lt _ (by omega)
  have hjn : j + 1 ≤ n := by
    by_contra hcon
    have h3 : n ≤ j := by omega
    have h4 : cfg.activeLEDs * 3 * n ≤ cfg.activeLEDs * 3 * j := Nat.mul_le_mul_left _ h3
    have h5 : cfg.activeLEDs * 3 * j = 3 * (cfg.activeLEDs * j) := by ring
    omega
  rw [← hj, ← hc]
  have hmul1 : cfg.activeLEDs * 3 * (j + 1) ≤ cfg.activeLEDs * 3 * n := Nat.mul_le_mul_left _ hjn
  have hmulsub : cfg.activeLEDs * 3 * (n - (j + 1)) = cfg.activeLEDs * 3 * n - cfg.activeLEDs * 3 * (j + 1) := by
    rw [Nat.mul_sub]
  have e1 := decodeLoop_eq cfg data ha1 fuel (j + 1) 0 sense (by omega) (by rw [hst]; omega)
  have e3 := decodeLoop_eq cfg data ha1 fuel n 0 sense hfuel (by rw [hst]; omega)
  refine ⟨_, _, e1, ?_, e3, ?_⟩
  · rw [decodeLoop_eq cfg data ha1 fuel (n - (j + 1)) (cfg.activeLEDs * 3 * (j + 1)) _ (by omega)
      (by rw [hst]; omega)]
    have hn : n = (j + 1) + (n - (j + 1)) := by omega
    conv_rhs => rw [hn, List.range_add, List.map_append, List.map_map]
    simp only [appendSamples, List.foldl_append]
    have ef : (fun t => sampleOf cfg (fun i => data.getD i 0)
          (cfg.activeLEDs * 3 * (j + 1) + stride cfg * t))
        = ((fun t => sampleOf cfg (fun i => data.getD i 0) (0 + stride cfg * t))
            ∘ fun x => j + 1 + x) := by
      funext t
      simp only [Function.comp_apply, hst]
      rw [show cfg.activeLEDs * 3 * (j + 1) + cfg.activeLEDs * 3 * t
        = 0 + cfg.activeLEDs * 3 * (j + 1 + t) by ring]
    rw [ef]
  · have hstored : (if c = 0 then
          (appendSamples cfg sense ((List.range (j + 1)).map
            (fun t => sampleOf cfg (fun i => data.getD i 0) (0 + stride cfg * t)))).red
            (appendSamples cfg sense ((List.range (j + 1)).map
            (fun t => sampleOf cfg (fun i => data.getD i 0) (0 + stride cfg * t)))).head
        else
          (appendSamples cfg sense ((List.range (j + 1)).map
            (fun t => sampleOf cfg (fun i => data.getD i 0) (0 + stride cfg * t)))).IR
            (appendSamples cfg sense ((List.range (j + 1)).map
            (fun t => sampleOf cfg (fun i => data.getD i 0) (0 + stride cfg * t)))).head)
        = specReading b0 b1 b2 := by
      rw [List.range_succ, List.map_append, List.map_singleton, appendSamples_snoc]
      by_cases hc0 : c = 0
      · rw [if_pos hc0, appendSample_red_head]
        have eg : 0 + stride cfg * j = 3 * g := by rw [hst, hgjc, hc0]; ring
        rw [eg]
        simp only [sampleOf, groupReading, hd0, hd1, hd2]
      · have ha' : cfg.activeLEDs > 1 := by omega
        rw [if_neg hc0, appendSample_IR_head cfg _ _ ha']
        have eg : 0 + stride cfg * j + 3 = 3 * g := by
          rw [hst, hgjc]
          have : c = 1 := by omega
          rw [this]; ring
        simp only [sampleOf, ha', if_true]
        rw [eg]
        simp only [groupReading, hd0, hd1, hd2]
    rw [hstored]
    exact ⟨rfl, encodeBE_specReading b0 b1 b2 hb1 hb2⟩

/-- C2. For read and write pointers in 0..31 (so for every pending count 0..31),
`activeLEDs` 1 or 2 and `I2C_BUFFER_LENGTH` 8, 16 or 32, a pass of `check`
completes and every length it passed to `readMany` is a multiple of
`activeLEDs * 3`. -/
theorem check_requests_sample_aligned (cfg : Config) (fuel : Nat) (fifo : Nat → Nat)
    (r w : Nat) (s : Sense) (hr : r < 32) (hw : w < 32)
    (ha : cfg.activeLEDs = 1 ∨ cfg.activeLEDs = 2)
    (hcap : cfg.I2C_BUFFER_LENGTH = 8 ∨ cfg.I2C_BUFFER_LENGTH = 16 ∨ cfg.I2C_BUFFER_LENGTH = 32)
    (hfuel : 31 ≤ fuel) :
    ∃ d, check cfg fuel fifo r w s = Except.ok (pending r w, d) ∧
      ∀ x ∈ d.requests, cfg.activeLEDs * 3 ∣ x := by
  have hlt := pending_lt r w
  obtain ⟨d, hrun, _, ⟨_, hall⟩, _⟩ := check_eq cfg fuel fifo r w s hr hw (by omega) (by omega)
    (Or.inl (by omega)) (by omega)
  exact ⟨d, hrun, fun x hx => (hall x hx).2.2⟩

/-- C3. For read and write pointers in 0..31, with the burst cap at least one
sample and every burst within the 8-bit length of `readMany`, `check` returns
`(writePtr - readPtr) mod 32`; when the pointers are equal it returns 0 with no
block read and the ring (cursors and stored readings) unchanged. -/
theorem check_returns_pending (cfg : Config) (fuel : Nat) (fifo : Nat → Nat)
    (r w : Nat) (s : Sense) (hr : r < 32) (hw : w < 32)
    (hcap : cfg.activeLEDs * 3 ≤ cfg.I2C_BUFFER_LENGTH)
    (hsz : cfg.I2C_BUFFER_LENGTH ≤ 255 ∨ cfg.activeLEDs ≤ 2)
    (hfuel : 31 ≤ fuel) :
    (∃ d, check cfg fuel fifo r w s
        = Except.ok ((((w : Int) - (r : Int)) % 32).toNat, d)) ∧
    (r = w → check cfg fuel fifo r w s
        = Except.ok (0, { sense := s, fifoPos := 0, requests := [] })) := by
  have hlt := pending_lt r w
  constructor
  · show ∃ d, check cfg fuel fifo r w s = Except.ok (pending r w, d)
    rcases Nat.eq_zero_or_pos cfg.activeLEDs with h0 | hpos
    · refine ⟨{ sense := s, fifoPos := 0, requests := [] }, ?_⟩
      rw [check_unfold cfg fuel fifo r w s hr hw, h0]
      simp [burstLoop_zero]
    · have hsz' : cfg.I2C_BUFFER_LENGTH ≤ 255 ∨ cfg.activeLEDs * 3 * pending r w ≤ 255 := by
        rcases hsz with h | h
        · exact Or.inl h
        · right
          have h1 : cfg.activeLEDs * 3 * pending r w ≤ 2 * 3 * pending r w :=
            Nat.mul_le_mul_right _ (Nat.mul_le_mul_right _ h)
          omega
      obtain ⟨d, hrun, _⟩ := check_eq cfg fuel fifo r w s hr hw hpos hcap hsz' (by omega)
      exact ⟨d, hrun⟩
  · intro hrw
    unfold check
    simp [hrw]

/-- C4. A pass of `check` with pointers in 0..31, `activeLEDs` 1 or 2, the cap
at least one sample and `head < STORAGE_SIZE` pulls `P = (w - r) mod 32` samples:
afterwards `head = (old head + P) mod STORAGE_SIZE`, `tail` is unchanged, and for
every `k < min P STORAGE_SIZE` the slot `(head - k) mod STORAGE_SIZE` holds the
reading of sample `P-1-k` in device order (Red, and IR when `activeLEDs > 1`);
for `P > 0`, `getRed`/`getIR` return the last sample decoded. -/
theorem check_appends_in_order (cfg : Config) (fuel : Nat) (fifo : Nat → Nat)
    (r w : Nat) (s : Sense) (hr : r < 32) (hw : w < 32)
    (ha : cfg.activeLEDs = 1 ∨ cfg.activeLEDs = 2)
    (hcap : cfg.activeLEDs * 3 ≤ cfg.I2C_BUFFER_LENGTH)
    (hhead : s.head < cfg.STORAGE_SIZE)
    (hfuel : pending r w ≤ fuel) :
    ∃ d, check cfg fuel fifo r w s = Except.ok (pending r w, d) ∧
      d.sense.head = (s.head + pending r w) % cfg.STORAGE_SIZE ∧
      d.sense.tail = s.tail ∧
      (∀ k, k < pending r w → k < cfg.STORAGE_SIZE →
        d.sense.red ((d.sense.head + cfg.STORAGE_SIZE - k) % cfg.STORAGE_SIZE)
          = groupReading (fun i => fifo i % 256) (cfg.activeLEDs * 3 * (pending r w - 1 - k)) ∧
        (cfg.activeLEDs > 1 →
          d.sense.IR ((d.sense.head + cfg.STORAGE_SIZE - k) % cfg.STORAGE_SIZE)
            = groupReading (fun i => fifo i % 256)
                (cfg.activeLEDs * 3 * (pending r w - 1 - k) + 3))) ∧
      (0 < pending r w →
        getRed d.sense
          = groupReading (fun i => fifo i % 256) (cfg.activeLEDs * 3 * (pending r w - 1)) ∧
        (cfg.activeLEDs > 1 →
          getIR d.sense
            = groupReading (fun i => fifo i % 256) (cfg.activeLEDs * 3 * (pending r w - 1) + 3))) := by
  have hlt := pending_lt r w
  have hsz : cfg.I2C_BUFFER_LENGTH ≤ 255 ∨ cfg.activeLEDs * 3 * pending r w ≤ 255 := by
    right
    rcases ha with h | h <;> rw [h] <;> omega
  obtain ⟨d, hrun, _, _, ⟨S, hSlen, hS, hSeq⟩⟩ :=
    check_eq cfg fuel fifo r w s hr hw (by omega) hcap hsz hfuel
  have hSe := hSeq (by omega)
  have hslots : ∀ k, k < pending r w → k < cfg.STORAGE_SIZE →
      d.sense.red ((d.sense.head + cfg.STORAGE_SIZE - k) % cfg.STORAGE_SIZE)
        = groupReading (fun i => fifo i % 256) (cfg.activeLEDs * 3 * (pending r w - 1 - k)) ∧
      (cfg.activeLEDs > 1 →
        d.sense.IR ((d.sense.head + cfg.STORAGE_SIZE - k) % cfg.STORAGE_SIZE)
          = groupReading (fun i => fifo i % 256)
              (cfg.activeLEDs * 3 * (pending r w - 1 - k) + 3)) := by
    intro k hk hkC
    obtain ⟨hred, hir⟩ := appendSamples_slot cfg s hhead S k (by omega) hkC
    have hget : S.getD (S.length - 1 - k) (0, 0)
        = sampleOf cfg (fun i => fifo i % 256) (cfg.activeLEDs * 3 * (pending r w - 1 - k)) := by
      rw [hSlen, hSe]
      simp only [List.getD_eq_getElem?_getD]
      rw [List.getElem?_map, List.getElem?_range (by omega)]
      rfl
    rw [hS]
    constructor
    · rw [hred, hget]; rfl
    · intro ha'
      rw [hir ha', hget]
      simp [sampleOf, ha']
  refine ⟨d, hrun, ?_, ?_, hslots, ?_⟩
  · rw [hS, appendSamples_head cfg S s hhead, hSlen]
  · rw [hS, appendSamples_tail]
  · intro hP
    have hC : 0 < cfg.STORAGE_SIZE := by omega
    have hdh : d.sense.head < cfg.STORAGE_SIZE := by
      rw [hS, appendSamples_head cfg S s hhead]
      exact Nat.mod_lt _ hC
    have h0 := hslots 0 hP hC
    have e : (d.sense.head + cfg.STORAGE_SIZE - 0) % cfg.STORAGE_SIZE = d.sense.head := by
      rw [Nat.sub_zero, Nat.add_mod_right, Nat.mod_eq_of_lt hdh]
    rw [e] at h0
    exact h0

/-- C10 (amended). For pointers in 0..31 with `P = (w - r) mod 32`, every
`activeLEDs >= 1` and a cap of at least `activeLEDs * 3`, provided every burst
fits the 8-bit length parameter of `readMany` (cap at most 255, or
`P * activeLEDs * 3` at most 255): with any step budget of at least `P` the burst
loop ends, the lengths requested sum to `P * activeLEDs * 3`, and each request is
non-zero and no larger than the cap. -/
theorem check_requests_total (cfg : Config) (fuel : Nat) (fifo : Nat → Nat)
    (r w : Nat) (s : Sense) (hr : r < 32) (hw : w < 32)
    (ha : 1 ≤ cfg.activeLEDs)
    (hcap : cfg.activeLEDs * 3 ≤ cfg.I2C_BUFFER_LENGTH)
    (hsz : cfg.I2C_BUFFER_LENGTH ≤ 255 ∨ pending r w * cfg.activeLEDs * 3 ≤ 255)
    (hfuel : pending r w ≤ fuel) :
    ∃ d, check cfg fuel fifo r w s = Except.ok (pending r w, d) ∧
      d.requests.sum = pending r w * cfg.activeLEDs * 3 ∧
      ∀ x ∈ d.requests, 0 < x ∧ x ≤ cfg.I2C_BUFFER_LENGTH := by
  have e : pending r w * cfg.activeLEDs * 3 = cfg.activeLEDs * 3 * pending r w := by ring
  rw [e] at hsz ⊢
  obtain ⟨d, hrun, _, ⟨hsum, hall⟩, _⟩ := check_eq cfg fuel fifo r w s hr hw ha hcap hsz hfuel
  exact ⟨d, hrun, hsum, fun x hx => ⟨(hall x hx).1, (hall x hx).2.1⟩⟩

/-! ### `available` after appends -/

theorem available_after (cfg : Config) (sense : Sense) (N : Nat)
    (hC : cfg.STORAGE_SIZE ≤ 128) (ht : sense.tail < cfg.STORAGE_SIZE)
    (hh : sense.head = (sense.tail + N) % cfg.STORAGE_SIZE) :
    available cfg sense = N % cfg.STORAGE_SIZE ∧
    available cfg sense
      = (((sense.head : Int) - (sense.tail : Int)) % (cfg.STORAGE_SIZE : Int)).toNat := by
  have hCpos : 0 < cfg.STORAGE_SIZE := by omega
  have hm : N % cfg.STORAGE_SIZE < cfg.STORAGE_SIZE := Nat.mod_lt _ hCpos
  have hh' : sense.head = (sense.tail + N % cfg.STORAGE_SIZE) % cfg.STORAGE_SIZE := by
    rw [hh, Nat.add_mod_mod]
  rw [mod_lt_twice _ _ (by omega)] at hh'
  generalize N % cfg.STORAGE_SIZE = m at hm hh'
  have hav : available cfg sense = m := by
    unfold available toInt8 toUInt8
    dsimp only
    split at hh' <;> split <;> omega
  refine ⟨hav, ?_⟩
  rw [hav]
  split at hh'
  · have e : (sense.head : Int) - (sense.tail : Int) = (m : Int) := by omega
    rw [e, Int.emod_eq_of_lt (by omega) (by omega)]
    rfl
  · have e : (sense.head : Int) - (sense.tail : Int) = (m : Int) - (cfg.STORAGE_SIZE : Int) := by
      omega
    rw [e, Int.sub_eq_add_neg, Int.add_neg_emod_self, Int.emod_eq_of_lt (by omega) (by omega)]
    rfl

theorem checkPasses_cursors (cfg : Config) (fuel : Nat)
    (ha : cfg.activeLEDs = 1 ∨ cfg.activeLEDs = 2)
    (hcap : cfg.activeLEDs * 3 ≤ cfg.I2C_BUFFER_LENGTH) (hfuel : 31 ≤ fuel) :
    ∀ (passes : List ((Nat → Nat) × Nat × Nat)) (sense : Sense),
      (∀ p ∈ passes, p.2.1 < 32 ∧ p.2.2 < 32) → sense.head < cfg.STORAGE_SIZE →
      ∃ sense1, checkPasses cfg fuel passes sense
          = Except.ok ((passes.map (fun p => pending p.2.1 p.2.2)).sum, sense1) ∧
        sense1.head = (sense.head + (passes.map (fun p => pending p.2.1 p.2.2)).sum)
          % cfg.STORAGE_SIZE ∧
        sense1.tail = sense.tail := by
  intro passes
  induction passes with
  | nil =>
    intro sense _ hh
    exact ⟨sense, rfl, by simp [Nat.mod_eq_of_lt hh], rfl⟩
  | cons p rest ih =>
    intro sense hp hh
    obtain ⟨fifo, r, w⟩ := p
    have hrw := hp (fifo, r, w) (List.mem_cons_self _ _)
    have hlt := pending_lt r w
    have hsz : cfg.I2C_BUFFER_LENGTH ≤ 255 ∨ cfg.activeLEDs * 3 * pending r w ≤ 255 := by
      right
      rcases ha with h | h <;> rw [h] <;> omega
    obtain ⟨d, hrun, _, _, ⟨S, hSlen, hS, _⟩⟩ :=
      check_eq cfg fuel fifo r w sense hrw.1 hrw.2 (by omega) hcap hsz (by omega)
    have hdh : d.sense.head = (sense.head + pending r w) % cfg.STORAGE_SIZE := by
      rw [hS, appendSamples_head cfg S sense hh, hSlen]
    have hdt : d.sense.tail = sense.tail := by rw [hS, appendSamples_tail]
    have hdlt : d.sense.head < cfg.STORAGE_SIZE := by
      rw [hdh]; exact Nat.mod_lt _ (by omega)
    obtain ⟨sense1, hrest, hh1, ht1⟩ :=
      ih d.sense (fun q hq => hp q (List.mem_cons_of_mem _ hq)) hdlt
    refine ⟨sense1, ?_, ?_, ?_⟩
    · simp only [checkPasses, hrun, hrest, List.map_cons, List.sum_cons]
    · rw [hh1, hdh, Nat.mod_add_mod, List.map_cons, List.sum_cons, Nat.add_assoc]
    · rw [ht1, hdt]

/-- C5 (amended). For every ring capacity `STORAGE_SIZE` of at most 128 and every
sequence of `check` passes (pointers in 0..31, `activeLEDs` 1 or 2, cap at least
one sample) that appends `N` samples in total to an empty ring (`head = tail`),
`available()` equals `N mod STORAGE_SIZE`, which equals
`(head - tail) mod STORAGE_SIZE`. -/
theorem available_after_appends (cfg : Config) (fuel : Nat)
    (passes : List ((Nat → Nat) × Nat × Nat)) (sense : Sense)
    (ha : cfg.activeLEDs = 1 ∨ cfg.activeLEDs = 2)
    (hcap : cfg.activeLEDs * 3 ≤ cfg.I2C_BUFFER_LENGTH)
    (hC : cfg.STORAGE_SIZE ≤ 128)
    (hempty : sense.head = sense.tail) (hhead : sense.head < cfg.STORAGE_SIZE)
    (hptr : ∀ p ∈ passes, p.2.1 < 32 ∧ p.2.2 < 32)
    (hfuel : 31 ≤ fuel) :
    ∃ sense1, checkPasses cfg fuel passes sense
        = Except.ok ((passes.map (fun p => pending p.2.1 p.2.2)).sum, sense1) ∧
      available cfg sense1
        = (passes.map (fun p => pending p.2.1 p.2.2)).sum % cfg.STORAGE_SIZE ∧
      available cfg sense1
        = (((sense1.head : Int) - (sense1.tail : Int)) % (cfg.STORAGE_SIZE : Int)).toNat := by
  obtain ⟨sense1, hrun, hh1, ht1⟩ := checkPasses_cursors cfg fuel ha hcap hfuel passes sense hptr hhead
  have hav := available_after cfg sense1 (passes.map (fun p => pending p.2.1 p.2.2)).sum hC
    (by rw [ht1, ← hempty]; exact hhead) (by rw [hh1, ht1, hempty])
  exact ⟨sense1, hrun, hav.1, hav.2⟩

set_option maxRecDepth 100000 in
/-- C5, as stated, fails for a capacity above 128: with `STORAGE_SIZE = 129`, five
passes append 31+31+31+31+4 = 128 samples to the zero ring; `head - tail = 128`
does not fit the `int8_t` in `available`, which returns 1 and not
`128 mod 129 = 128`. -/
theorem available_wraps_at_capacity_129 :
    (match checkPasses { I2C_BUFFER_LENGTH := 32, STORAGE_SIZE := 129, activeLEDs := 1 } 31
        [(fun _ => 0, 0, 31), (fun _ => 0, 31, 30), (fun _ => 0, 30, 29), (fun _ => 0, 29, 28),
          (fun _ => 0, 28, 0)] zeroRing with
      | Except.ok (n, sense1) =>
        (n, sense1.head, sense1.tail,
          available { I2C_BUFFER_LENGTH := 32, STORAGE_SIZE := 129, activeLEDs := 1 } sense1)
      | Except.error _ => (0, 0, 0, 0)) = (128, 128, 0, 1)
    ∧ 128 % 129 ≠ 1 := by
  decide

set_option maxRecDepth 100000 in
/-- C10, as stated, fails when a burst exceeds 255 bytes. With `activeLEDs = 255`,
cap 765 and two pending samples, `toGet` is 765 twice, `readMany` receives it as
the `uint8_t` 253, and the lengths requested sum to 506, not `2 * 255 * 3`. With
`activeLEDs = 3`, cap 288 and 31 pending samples, `toGet` is 279, `readMany`
returns 23 bytes and the decode loop subscripts past their end. -/
theorem requests_truncated_to_8_bits :
    (match check { I2C_BUFFER_LENGTH := 765, STORAGE_SIZE := 4, activeLEDs := 255 } 2
        (fun _ => 0) 0 2 zeroRing with
      | Except.ok (n, d) => (n, d.requests)
      | Except.error _ => (0, [])) = (2, [253, 253])
    ∧ 255 * 3 ≤ 765 ∧ [253, 253].sum ≠ 2 * 255 * 3
    ∧ (match check { I2C_BUFFER_LENGTH := 288, STORAGE_SIZE := 4, activeLEDs := 3 } 31
        (fun _ => 0) 0 31 zeroRing with
      | Except.ok _ => none
      | Except.error e => some e) = some Fault.outOfBounds
    ∧ 3 * 3 ≤ 288 := by
  decide

/-! ### The five-sample scenario -/

theorem burstLoop_step (cfg : Config) (fifo : Nat → Nat) (innerFuel fuel n q : Nat) (d : Drain)
    (ha : 1 ≤ cfg.activeLEDs) (hq1 : 1 ≤ q) (hqn : q ≤ n) (hq255 : cfg.activeLEDs * 3 * q ≤ 255)
    (hin : q ≤ innerFuel)
    (hq : (if ((cfg.activeLEDs * 3 * n : Nat) : Int) > (cfg.I2C_BUFFER_LENGTH : Int) then
        (cfg.I2C_BUFFER_LENGTH : Int) - (cfg.I2C_BUFFER_LENGTH : Int) % ((cfg.activeLEDs : Int) * 3)
      else ((cfg.activeLEDs * 3 * n : Nat) : Int)) = ((cfg.activeLEDs * 3 * q : Nat) : Int)) :
    ∃ sense1, burstLoop cfg fifo innerFuel (fuel + 1) ((cfg.activeLEDs * 3 * n : Nat) : Int) d
      = burstLoop cfg fifo innerFuel fuel ((cfg.activeLEDs * 3 * (n - q) : Nat) : Int)
          { sense := sense1
            fifoPos := d.fifoPos + cfg.activeLEDs * 3 * q
            requests := d.requests ++ [cfg.activeLEDs * 3 * q] } := by
  have hbpos : ((cfg.activeLEDs * 3 * n : Nat) : Int) > 0 := by
    have : 0 < cfg.activeLEDs * 3 * n := by
      have : 1 ≤ n := by omega
      positivity
    exact_mod_cast this
  have hqle : cfg.activeLEDs * 3 * q ≤ cfg.activeLEDs * 3 * n := Nat.mul_le_mul_left _ hqn
  have hrest : ((cfg.activeLEDs * 3 * n : Nat) : Int) - ((cfg.activeLEDs * 3 * q : Nat) : Int)
      = ((cfg.activeLEDs * 3 * (n - q) : Nat) : Int) := by
    have : cfg.activeLEDs * 3 * (n - q) = cfg.activeLEDs * 3 * n - cfg.activeLEDs * 3 * q := by
      rw [Nat.mul_sub]
    omega
  have hstr : 0 + stride cfg * q ≤ (readMany fifo d.fifoPos (cfg.activeLEDs * 3 * q)).length := by
    rw [readMany_length]
    have := Nat.mul_le_mul_right q (stride_le cfg ha)
    omega
  have hdec := decodeLoop_eq cfg (readMany fifo d.fifoPos (cfg.activeLEDs * 3 * q)) ha
    innerFuel q 0 d.sense hin hstr
  refine ⟨appendSamples cfg d.sense ((List.range q).map (fun t =>
    sampleOf cfg (fun i => (readMany fifo d.fifoPos (cfg.activeLEDs * 3 * q)).getD i 0)
      (0 + stride cfg * t))), ?_⟩
  rw [burstLoop]
  simp only [hbpos, if_true, hq, toUInt8_natCast _ hq255, hdec, hrest]

/-- C6, as stated, fails: in the scenario (write pointer 5, read pointer 0, two
channels, cap 12, zero ring of capacity 8, FIFO byte `k` equal to `k`) one pass
of `check` issues three block reads of 12, 12 and 6 bytes, not two of 12 and 18;
it reports 5 samples and `available()` becomes 5. -/
theorem scenario_issues_three_reads :
    (match check (scenarioConfig 8) 5 (fun k => k) 0 5 zeroRing with
      | Except.ok (n, d) => (n, d.requests, available (scenarioConfig 8) d.sense)
      | Except.error _ => (0, [], 0)) = (5, [12, 12, 6], 5)
    ∧ [12, 12, 6] ≠ [12, 18] := by
  decide

/-- C6 (amended). In the scenario (write pointer 5, read pointer 0, two channels,
cap 12 bytes), starting from an empty ring (`head = tail`) of capacity between 6
and 128, one pass of `check` issues three block reads of 12, 12 and 6 bytes,
appends the 5 Red/IR pairs of the 30 FIFO bytes in device order, reports 5, and
`available()` becomes 5. -/
theorem scenario_five_pairs (capacity fuel : Nat) (fifo : Nat → Nat) (sense : Sense)
    (hlo : 6 ≤ capacity) (hhi : capacity ≤ 128)
    (hempty : sense.head = sense.tail) (hhead : sense.head < capacity) (hfuel : 5 ≤ fuel) :
    ∃ d, check (scenarioConfig capacity) fuel fifo 0 5 sense = Except.ok (5, d) ∧
      d.requests = [12, 12, 6] ∧
      d.sense = appendSamples (scenarioConfig capacity) sense
        ((List.range 5).map (fun j =>
          (groupReading (fun i => fifo i % 256) (6 * j),
            groupReading (fun i => fifo i % 256) (6 * j + 3)))) ∧
      available (scenarioConfig capacity) d.sense = 5 := by
  have hp : pending 0 5 = 5 := by decide
  have hA : (scenarioConfig capacity).activeLEDs = 2 := rfl
  have hB : (scenarioConfig capacity).I2C_BUFFER_LENGTH = 12 := rfl
  have hCs : (scenarioConfig capacity).STORAGE_SIZE = capacity := rfl
  have ha : 1 ≤ (scenarioConfig capacity).activeLEDs := by rw [hA]; decide
  obtain ⟨d, hrun, _, _, ⟨S, hSlen, hS, hSeq⟩⟩ :=
    check_eq (scenarioConfig capacity) fuel fifo 0 5 sense (by omega) (by omega) ha
      (by rw [hA, hB]; decide) (Or.inl (by rw [hB]; decide)) (by omega)
  rw [hp] at hrun hSlen hSeq
  have hrun0 := hrun
  have hSe := hSeq (by rw [hA])
  obtain ⟨k, rfl⟩ : ∃ k, fuel = k + 3 := ⟨fuel - 3, by omega⟩
  obtain ⟨s1, h1⟩ := burstLoop_step (scenarioConfig capacity) fifo (k + 3) (k + 2) 5 2
    { sense := sense, fifoPos := 0, requests := [] } ha (by omega) (by omega)
    (by rw [hA]; decide) (by omega) (by rw [hA, hB]; decide)
  obtain ⟨s2, h2⟩ := burstLoop_step (scenarioConfig capacity) fifo (k + 3) (k + 1) (5 - 2) 2
    { sense := s1, fifoPos := 0 + (scenarioConfig capacity).activeLEDs * 3 * 2,
      requests := [] ++ [(scenarioConfig capacity).activeLEDs * 3 * 2] }
    ha (by omega) (by omega) (by rw [hA]; decide) (by omega) (by rw [hA, hB]; decide)
  obtain ⟨s3, h3⟩ := burstLoop_step (scenarioConfig capacity) fifo (k + 3) k (5 - 2 - 2) 1
    { sense := s2,
      fifoPos := 0 + (scenarioConfig capacity).activeLEDs * 3 * 2
        + (scenarioConfig capacity).activeLEDs * 3 * 2,
      requests := [] ++ [(scenarioConfig capacity).activeLEDs * 3 * 2]
        ++ [(scenarioConfig capacity).activeLEDs * 3 * 2] }
    ha (by omega) (by omega) (by rw [hA]; decide) (by omega) (by rw [hA, hB]; decide)
  have hz : (((scenarioConfig capacity).activeLEDs * 3 * (5 - 2 - 2 - 1) : Nat) : Int) = 0 := by
    rw [hA]; decide
  rw [hz, burstLoop_zero] at h3
  have hburst := h1.trans (h2.trans h3)
  rw [check_unfold (scenarioConfig capacity) (k + 3) fifo 0 5 sense (by omega) (by omega), hp,
    hburst] at hrun
  simp only [Except.ok.injEq, Prod.mk.injEq, true_and] at hrun
  have hdh : d.sense.head = (sense.head + 5) % capacity := by
    rw [hS, appendSamples_head (scenarioConfig capacity) S sense hhead, hSlen, hCs]
  have hdt : d.sense.tail = sense.tail := by rw [hS, appendSamples_tail]
  have hav := (available_after (scenarioConfig capacity) d.sense 5 hhi
    (by rw [hdt, ← hempty]; exact hhead) (by rw [hdh, hdt, hempty, hCs])).1
  refine ⟨d, hrun0, ?_, ?_, ?_⟩
  · rw [← hrun]
    rfl
  · rw [hS, hSe]
    rfl
  · rw [hav, hCs]
    exact Nat.mod_eq_of_lt (by omega)

/-! ### Lifecycle -/

/-- C7, the code at the failing input. `begin` called on the Running driver,
where the edge request is refused because the line is still held, does not
refuse up front and leave the driver as it was: it replaces the bus handle
(3 becomes 4), re-assigns the chip and line handles, and only then throws. The
worker count and the `running` flag stay as they were. -/
theorem begin_while_running_overwrites_then_throws :
    (begin sheetConsts busyCalls runningDevice).1 = BeginOutcome.threw ∧
    (begin sheetConsts busyCalls runningDevice).2.i2c = 4 ∧
    runningDevice.i2c = 3 ∧
    (begin sheetConsts busyCalls runningDevice).2.drdyOpens = 2 ∧
    runningDevice.drdyOpens = 1 ∧
    (begin sheetConsts busyCalls runningDevice).2.workersStarted = 1 ∧
    runningDevice.workersStarted = 1 ∧
    (begin sheetConsts busyCalls runningDevice).2.running = true ∧
    runningDevice.running = true := by
  decide

theorem bitMask_byte_idem (x m t : Nat) :
    ((((((x % 256 &&& m) % 256 ||| t) % 256) % 256 &&& m) % 256 ||| t) % 256)
      = ((x % 256 &&& m) % 256 ||| t) % 256 := by
  have h : (256 : Nat) = 2 ^ 8 := by norm_num
  rw [h]
  apply Nat.eq_of_testBit_eq
  intro i
  simp only [Nat.testBit_mod_two_pow, Nat.testBit_or, Nat.testBit_and]
  cases decide (i < 8) <;> cases x.testBit i <;> cases m.testBit i <;> cases t.testBit i <;> rfl

theorem bitMask_idem (regs : Nat → Nat) (reg mask thing : Nat) :
    bitMask (bitMask regs reg mask thing) reg mask thing = bitMask regs reg mask thing := by
  unfold bitMask
  simp only [Function.update_same, Function.update_idem]
  rw [bitMask_byte_idem]

theorem shutDown_idem (K : Consts) (dev : Device) :
    shutDown K (shutDown K dev) = shutDown K dev := by
  unfold shutDown
  simp only [bitMask_idem]

/-- C8. For every driver state in which a set `running` flag comes with a
joinable worker thread, `stop` completes without error and leaves
`running = false`, and a second `stop` completes without error and changes
nothing: registers, flags and the join, line-release, chip-close and
file-close counts are those left by the first call. (The second call does
repeat the `shutDown` register write; it stores the value already there.) -/
theorem stop_twice_is_stop (K : Consts) (dev : Device)
    (hinv : dev.running = true → dev.thrJoinable = true) :
    ∃ d1, stop K dev = Except.ok d1 ∧ d1.running = false ∧ stop K d1 = Except.ok d1 := by
  cases hr : dev.running with
  | false =>
    refine ⟨shutDown K dev, ?_, ?_, ?_⟩
    · simp [stop, shutDown, hr]
    · simp [shutDown, hr]
    · have h : (shutDown K dev).running = false := by simp [shutDown, hr]
      unfold stop
      rw [shutDown_idem]
      simp [h]
  | true =>
    have hj := hinv hr
    have e : stop K dev = Except.ok
        { shutDown K dev with
          running := false
          thrJoinable := false
          joins := dev.joins + 1
          lineReleases := dev.lineReleases + 1
          chipCloses := dev.chipCloses + 1
          fdCloses := dev.fdCloses + 1 } := by
      simp [stop, shutDown, hr, hj]
    refine ⟨_, e, rfl, ?_⟩
    unfold stop
    simp only [shutDown, bitMask_idem, Bool.not_false, if_true]

/-! ### Publishing -/

theorem popMany_zero (q : OutputQueue) : q.popMany 0 = ([], q) := by
  cases q
  simp [OutputQueue.popMany]

theorem push_full (q : OutputQueue) (x : Nat × Nat) (h : q.capacity ≤ q.items.length) :
    q.push x = (false, q) := by
  unfold OutputQueue.push
  rw [if_neg (by omega)]

theorem push_room (q : OutputQueue) (x : Nat × Nat) (h : q.items.length < q.capacity) :
    q.push x = (true, { q with items := q.items ++ [x] }) := by
  unfold OutputQueue.push
  rw [if_pos h]

theorem pushLoop_conserves (data : Nat × Nat) :
    ∀ (attempts : Nat) (pops : List Nat) (q : OutputQueue) (p : Published),
      pushLoop data attempts pops q = Except.ok p →
      p.consumed ++ p.queue.items = q.items ++ [data] ∧ p.queue.capacity = q.capacity := by
  intro attempts
  induction attempts with
  | zero => intro pops q p h; simp [pushLoop] at h
  | succ n ih =>
    intro pops q p h
    rw [pushLoop] at h
    by_cases hroom : q.items.length < q.capacity
    · rw [push_room q data hroom] at h
      simp only [Except.ok.injEq] at h
      subst h
      simp
    · rw [push_full q data (by omega)] at h
      simp only [OutputQueue.popMany] at h
      cases hrec : pushLoop data n pops.tail
          { capacity := q.capacity, items := q.items.drop (pops.headD 0) } with
      | error e => rw [hrec] at h; simp at h
      | ok p1 =>
        rw [hrec] at h
        simp only [Except.ok.injEq] at h
        subst h
        obtain ⟨h1, h2⟩ := ih _ _ _ hrec
        simp only [] at h1 h2
        refine ⟨?_, h2⟩
        simp only [List.append_assoc, h1]
        rw [← List.append_assoc, List.take_append_drop]

theorem pushLoop_room (data : Nat × Nat) (attempts : Nat) (pops : List Nat) (q : OutputQueue)
    (h : q.items.length < q.capacity) :
    pushLoop data (attempts + 1) pops q
      = Except.ok { queue := { q with items := q.items ++ [data] }, yields := 0, consumed := [] } := by
  rw [pushLoop, push_room q data h]

theorem pushLoop_waits (data : Nat × Nat) (q : OutputQueue) (hfull : q.capacity ≤ q.items.length) :
    ∀ (attempts : Nat) (pops : List Nat), (∀ x ∈ pops, x = 0) →
      pushLoop data attempts pops q = Except.error Fault.outOfFuel := by
  intro attempts
  induction attempts with
  | zero => intro pops _; rfl
  | succ n ih =>
    intro pops hz
    have hhead : pops.headD 0 = 0 := by
      cases pops with
      | nil => rfl
      | cons x xs => exact hz x (List.mem_cons_self _ _)
    have htail : ∀ x ∈ pops.tail, x = 0 := fun x hx => hz x (List.mem_of_mem_tail hx)
    rw [pushLoop, push_full q data hfull, hhead]
    simp only [popMany_zero, ih pops.tail htail]

theorem pushLoop_after_pop (data : Nat × Nat) (q : OutputQueue)
    (hfull : q.items.length = q.capacity) (hcap : 0 < q.capacity) (k : Nat) (rest : List Nat) :
    ∀ (m attempts : Nat), m + 2 ≤ attempts →
      pushLoop data attempts (List.replicate m 0 ++ (k + 1) :: rest) q
        = Except.ok
            { queue := { q with items := q.items.drop (k + 1) ++ [data] }
              yields := m + 1
              consumed := q.items.take (k + 1) } := by
  intro m
  induction m with
  | zero =>
    intro attempts ha
    obtain ⟨a, rfl⟩ : ∃ a, attempts = a + 1 + 1 := ⟨attempts - 2, by omega⟩
    have hroom : (List.drop (k + 1) q.items).length < q.capacity := by
      rw [List.length_drop]; omega
    rw [pushLoop, push_full q data (by omega)]
    simp only [List.replicate_zero, List.nil_append, List.headD_cons, List.tail_cons,
      OutputQueue.popMany]
    rw [pushLoop_room data a rest _ hroom]
    simp
  | succ m ih =>
    intro attempts ha
    obtain ⟨a, rfl⟩ : ∃ a, attempts = a + 1 := ⟨attempts - 1, by omega⟩
    rw [pushLoop, push_full q data (by omega)]
    simp only [List.replicate_succ, List.cons_append, List.headD_cons, List.tail_cons,
      popMany_zero]
    rw [ih a (by omega)]
    simp

/-- C9. Let the `check` pass of `dataReady` complete (pointers in 0..31,
`activeLEDs` 1 or 2, cap at least one sample) and let `data` be the pair
`(getIR, getRed)` of the ring it leaves. For every queue, every schedule of
consumer pops and every bound on the number of `push` calls:
(1) whenever `dataReady` returns, the entries the consumer took followed by the
queue contents are the old contents followed by `data` once, so no entry was
dropped or overwritten and one push of `data` succeeded;
(2) with room in the queue it returns after the first push, without a yield;
(3) on a full queue it has not returned as long as the consumer pops nothing;
(4) on a full queue, if the consumer first pops (`k + 1` entries) during yield
number `m + 1`, `dataReady` returns after exactly `m + 1` failed pushes and
yields, the popped entries are the oldest ones, unchanged, and `data` is last
in the queue. With capacity 1 and one unread entry this is the second publish
waiting for the pop that delivers the first entry intact. -/
theorem dataReady_never_drops (cfg : Config) (fuel : Nat) (fifo : Nat → Nat) (r w : Nat)
    (sense : Sense) (hr : r < 32) (hw : w < 32)
    (ha : cfg.activeLEDs = 1 ∨ cfg.activeLEDs = 2)
    (hcap : cfg.activeLEDs * 3 ≤ cfg.I2C_BUFFER_LENGTH) (hfuel : pending r w ≤ fuel) :
    ∃ d, check cfg fuel fifo r w sense = Except.ok (pending r w, d) ∧
      ∀ (attempts : Nat) (pops : List Nat) (q : OutputQueue),
        (∀ s1 p, dataReady cfg fuel attempts fifo r w pops sense q = Except.ok (s1, p) →
          s1 = d.sense ∧
          p.consumed ++ p.queue.items = q.items ++ [(getIR d.sense, getRed d.sense)] ∧
          p.queue.capacity = q.capacity) ∧
        (q.items.length < q.capacity → 1 ≤ attempts →
          dataReady cfg fuel attempts fifo r w pops sense q
            = Except.ok (d.sense,
                { queue := { q with items := q.items ++ [(getIR d.sense, getRed d.sense)] }
                  yields := 0
                  consumed := [] })) ∧
        (q.capacity ≤ q.items.length → (∀ x ∈ pops, x = 0) →
          dataReady cfg fuel attempts fifo r w pops sense q = Except.error Fault.outOfFuel) ∧
        (q.items.length = q.capacity → 0 < q.capacity →
          ∀ (m k : Nat) (rest : List Nat), pops = List.replicate m 0 ++ (k + 1) :: rest →
            m + 2 ≤ attempts →
            dataReady cfg fuel attempts fifo r w pops sense q
              = Except.ok (d.sense,
                  { queue := { q with
                      items := q.items.drop (k + 1) ++ [(getIR d.sense, getRed d.sense)] }
                    yields := m + 1
                    consumed := q.items.take (k + 1) })) := by
  have hlt := pending_lt r w
  have hsz : cfg.I2C_BUFFER_LENGTH ≤ 255 ∨ cfg.activeLEDs * 3 * pending r w ≤ 255 := by
    right
    rcases ha with h | h <;> rw [h] <;> omega
  obtain ⟨d, hrun, _⟩ := check_eq cfg fuel fifo r w sense hr hw (by omega) hcap hsz hfuel
  refine ⟨d, hrun, ?_⟩
  intro attempts pops q
  have hdr : dataReady cfg fuel attempts fifo r w pops sense q
      = match pushLoop (getIR d.sense, getRed d.sense) attempts pops q with
        | Except.error e => Except.error e
        | Except.ok p => Except.ok (d.sense, p) := by
    unfold dataReady
    rw [hrun]
  refine ⟨?_, ?_, ?_, ?_⟩
  · intro s1 p h
    rw [hdr] at h
    cases hp : pushLoop (getIR d.sense, getRed d.sense) attempts pops q with
    | error e => rw [hp] at h; simp at h
    | ok p1 =>
      rw [hp] at h
      simp only [Except.ok.injEq, Prod.mk.injEq] at h
      obtain ⟨h1, h2⟩ := h
      subst h1 h2
      obtain ⟨hc1, hc2⟩ := pushLoop_conserves _ attempts pops q p1 hp
      exact ⟨rfl, hc1, hc2⟩
  · intro hroom hat
    obtain ⟨a, rfl⟩ : ∃ a, attempts = a + 1 := ⟨attempts - 1, by omega⟩
    rw [hdr, pushLoop_room _ a pops q hroom]
  · intro hfull hz
    rw [hdr, pushLoop_waits _ q hfull attempts pops hz]
  · intro hfull hcap0 m k rest hpops hat
    rw [hdr, hpops, pushLoop_after_pop _ q hfull hcap0 k rest m attempts hat]

/-- The capacity-1 scenario on the queue alone: the first publish succeeds at
once; the second fails three times while the consumer is idle, then the consumer
pops the first entry and the fourth push succeeds; with an idle consumer the
second publish is still retrying after 50 pushes. -/
theorem publish_twice_capacity_one :
    pushLoop (11, 12) 1 [] { capacity := 1, items := [] }
      = Except.ok { queue := { capacity := 1, items := [(11, 12)] }, yields := 0, consumed := [] } ∧
    pushLoop (21, 22) 4 [0, 0, 1] { capacity := 1, items := [(11, 12)] }
      = Except.ok
          { queue := { capacity := 1, items := [(21, 22)] }, yields := 3, consumed := [(11, 12)] } ∧
    pushLoop (21, 22) 50 [] { capacity := 1, items := [(11, 12)] }
      = Except.error Fault.outOfFuel := by
  refine ⟨rfl, rfl, rfl⟩

/-! ### Instances at concrete inputs -/

/-- C1 at a two-channel burst of one sample, group 1 (the IR group `FD 02 03`). -/
theorem decode_group_low18_witness :
    ∃ mid fin,
      decodeLoop { I2C_BUFFER_LENGTH := 32, STORAGE_SIZE := 4, activeLEDs := 2 }
          [0xFF, 0xFF, 0xFF, 0xFD, 2, 3] 1 (((2 * 3 * (1 / 2 + 1) : Nat) : Int)) 0 zeroRing
        = Except.ok mid ∧
      decodeLoop { I2C_BUFFER_LENGTH := 32, STORAGE_SIZE := 4, activeLEDs := 2 }
          [0xFF, 0xFF, 0xFF, 0xFD, 2, 3] 1 (((2 * 3 * (1 - (1 / 2 + 1)) : Nat) : Int))
          (2 * 3 * (1 / 2 + 1)) mid
        = Except.ok fin ∧
      decodeLoop { I2C_BUFFER_LENGTH := 32, STORAGE_SIZE := 4, activeLEDs := 2 }
          [0xFF, 0xFF, 0xFF, 0xFD, 2, 3] 1 (((2 * 3 * 1 : Nat) : Int)) 0 zeroRing
        = Except.ok fin ∧
      (if 1 % 2 = 0 then mid.red mid.head else mid.IR mid.head)
        = (0xFD * 65536 + 2 * 256 + 3) % 262144 ∧
      encodeBE (if 1 % 2 = 0 then mid.red mid.head else mid.IR mid.head) = (0xFD % 4, 2, 3) :=
  decode_group_low18 { I2C_BUFFER_LENGTH := 32, STORAGE_SIZE := 4, activeLEDs := 2 }
    [0xFF, 0xFF, 0xFF, 0xFD, 2, 3] 1 zeroRing 1 (Or.inr rfl) rfl (by decide) (by decide)
    1 0xFD 2 3 rfl rfl rfl

/-- C2 at cap 16, two channels, read pointer 3 and write pointer 1 (30 pending). -/
theorem check_requests_sample_aligned_witness :
    ∃ d, check { I2C_BUFFER_LENGTH := 16, STORAGE_SIZE := 4, activeLEDs := 2 } 31 (fun k => k)
        3 1 zeroRing = Except.ok (pending 3 1, d) ∧
      ∀ x ∈ d.requests, 2 * 3 ∣ x :=
  check_requests_sample_aligned { I2C_BUFFER_LENGTH := 16, STORAGE_SIZE := 4, activeLEDs := 2 }
    31 (fun k => k) 3 1 zeroRing (by decide) (by decide) (Or.inr rfl) (Or.inr (Or.inl rfl))
    (by decide)

/-- C3 at cap 32, two channels, read pointer 30 and write pointer 2 (4 pending). -/
theorem check_returns_pending_witness :
    (∃ d, check { I2C_BUFFER_LENGTH := 32, STORAGE_SIZE := 4, activeLEDs := 2 } 31 (fun k => k)
        30 2 zeroRing = Except.ok ((((2 : Int) - (30 : Int)) % 32).toNat, d)) ∧
    (30 = 2 → check { I2C_BUFFER_LENGTH := 32, STORAGE_SIZE := 4, activeLEDs := 2 } 31
        (fun k => k) 30 2 zeroRing
      = Except.ok (0, { sense := zeroRing, fifoPos := 0, requests := [] })) :=
  check_returns_pending { I2C_BUFFER_LENGTH := 32, STORAGE_SIZE := 4, activeLEDs := 2 } 31
    (fun k => k) 30 2 zeroRing (by decide) (by decide) (by decide) (Or.inl (by decide))
    (by decide)

/-- C4 at cap 32, two channels, capacity 4, six pending samples on the zero ring. -/
theorem check_appends_in_order_witness :
    ∃ d, check { I2C_BUFFER_LENGTH := 32, STORAGE_SIZE := 4, activeLEDs := 2 } 31 (fun k => k)
        0 6 zeroRing = Except.ok (pending 0 6, d) ∧
      d.sense.head = (0 + pending 0 6) % 4 ∧
      d.sense.tail = 0 ∧
      (∀ k, k < pending 0 6 → k < 4 →
        d.sense.red ((d.sense.head + 4 - k) % 4)
          = groupReading (fun i => i % 256) (2 * 3 * (pending 0 6 - 1 - k)) ∧
        (2 > 1 →
          d.sense.IR ((d.sense.head + 4 - k) % 4)
            = groupReading (fun i => i % 256) (2 * 3 * (pending 0 6 - 1 - k) + 3))) ∧
      (0 < pending 0 6 →
        getRed d.sense = groupReading (fun i => i % 256) (2 * 3 * (pending 0 6 - 1)) ∧
        (2 > 1 →
          getIR d.sense = groupReading (fun i => i % 256) (2 * 3 * (pending 0 6 - 1) + 3))) :=
  check_appends_in_order { I2C_BUFFER_LENGTH := 32, STORAGE_SIZE := 4, activeLEDs := 2 } 31
    (fun k => k) 0 6 zeroRing (by decide) (by decide) (Or.inr rfl) (by decide) (by decide)
    (by decide)

/-- C5 (amended) at capacity 4 after two passes of 5 and 4 samples. -/
theorem available_after_appends_witness :
    ∃ sense1, checkPasses { I2C_BUFFER_LENGTH := 32, STORAGE_SIZE := 4, activeLEDs := 2 } 31
        [(fun k => k, 0, 5), (fun k => k, 5, 9)] zeroRing
        = Except.ok (([((fun k => k, 0, 5) : (Nat → Nat) × Nat × Nat), (fun k => k, 5, 9)].map
            (fun p => pending p.2.1 p.2.2)).sum, sense1) ∧
      available { I2C_BUFFER_LENGTH := 32, STORAGE_SIZE := 4, activeLEDs := 2 } sense1
        = ([((fun k => k, 0, 5) : (Nat → Nat) × Nat × Nat), (fun k => k, 5, 9)].map
            (fun p => pending p.2.1 p.2.2)).sum % 4 ∧
      available { I2C_BUFFER_LENGTH := 32, STORAGE_SIZE := 4, activeLEDs := 2 } sense1
        = (((sense1.head : Int) - (sense1.tail : Int)) % ((4 : Nat) : Int)).toNat :=
  available_after_appends { I2C_BUFFER_LENGTH := 32, STORAGE_SIZE := 4, activeLEDs := 2 } 31
    [(fun k => k, 0, 5), (fun k => k, 5, 9)] zeroRing (Or.inr rfl) (by decide) (by decide) rfl
    (by decide) (by decide) (by decide)

/-- C6 (amended) at capacity 8 on the zero ring, FIFO byte `k` equal to `k`. -/
theorem scenario_five_pairs_witness :
    ∃ d, check (scenarioConfig 8) 5 (fun k => k) 0 5 zeroRing = Except.ok (5, d) ∧
      d.requests = [12, 12, 6] ∧
      d.sense = appendSamples (scenarioConfig 8) zeroRing
        ((List.range 5).map (fun j =>
          (groupReading (fun i => i % 256) (6 * j), groupReading (fun i => i % 256) (6 * j + 3)))) ∧
      available (scenarioConfig 8) d.sense = 5 :=
  scenario_five_pairs 8 5 (fun k => k) zeroRing (by decide) (by decide) rfl (by decide)
    (by decide)

/-- C8 at the Running driver `runningDevice`. -/
theorem stop_twice_is_stop_witness :
    ∃ d1, stop sheetConsts runningDevice = Except.ok d1 ∧ d1.running = false ∧
      stop sheetConsts d1 = Except.ok d1 :=
  stop_twice_is_stop sheetConsts runningDevice (fun _ => rfl)

/-- C10 (amended) at cap 32, three channels, 31 pending samples. -/
theorem check_requests_total_witness :
    ∃ d, check { I2C_BUFFER_LENGTH := 32, STORAGE_SIZE := 4, activeLEDs := 3 } 31 (fun k => k)
        0 31 zeroRing = Except.ok (pending 0 31, d) ∧
      d.requests.sum = pending 0 31 * 3 * 3 ∧
      ∀ x ∈ d.requests, 0 < x ∧ x ≤ 32 :=
  check_requests_total { I2C_BUFFER_LENGTH := 32, STORAGE_SIZE := 4, activeLEDs := 3 } 31
    (fun k => k) 0 31 zeroRing (by decide) (by decide) (by decide) (by decide)
    (Or.inl (by decide)) (by decide)

/-- C9 at the five-sample scenario with capacity 8. -/
theorem dataReady_never_drops_witness :
    ∃ d, check (scenarioConfig 8) 5 (fun k => k) 0 5 zeroRing = Except.ok (pending 0 5, d) ∧
      ∀ (attempts : Nat) (pops : List Nat) (q : OutputQueue),
        (∀ s1 p, dataReady (scenarioConfig 8) 5 attempts (fun k => k) 0 5 pops zeroRing q
            = Except.ok (s1, p) →
          s1 = d.sense ∧
          p.consumed ++ p.queue.items = q.items ++ [(getIR d.sense, getRed d.sense)] ∧
          p.queue.capacity = q.capacity) ∧
        (q.items.length < q.capacity → 1 ≤ attempts →
          dataReady (scenarioConfig 8) 5 attempts (fun k => k) 0 5 pops zeroRing q
            = Except.ok (d.sense,
                { queue := { q with items := q.items ++ [(getIR d.sense, getRed d.sense)] }
                  yields := 0
                  consumed := [] })) ∧
        (q.capacity ≤ q.items.length → (∀ x ∈ pops, x = 0) →
          dataReady (scenarioConfig 8) 5 attempts (fun k => k) 0 5 pops zeroRing q
            = Except.error Fault.outOfFuel) ∧
        (q.items.length = q.capacity → 0 < q.capacity →
          ∀ (m k : Nat) (rest : List Nat), pops = List.replicate m 0 ++ (k + 1) :: rest →
            m + 2 ≤ attempts →
            dataReady (scenarioConfig 8) 5 attempts (fun k => k) 0 5 pops zeroRing q
              = Except.ok (d.sense,
                  { queue := { q with
                      items := q.items.drop (k + 1) ++ [(getIR d.sense, getRed d.sense)] }
                    yields := m + 1
                    consumed := q.items.take (k + 1) })) :=
  dataReady_never_drops (scenarioConfig 8) 5 (fun k => k) 0 5 zeroRing (by decide) (by decide)
    (Or.inr rfl) (by decide) (by decide)

end MAX30102
